import Mathlib

/-!
Verification of the wakeup-task scheduling core of cockpit-tools
(src/pages/CodexWakeupTasksPage.tsx and src/stores/createInstanceStore.ts).

The TypeScript source is shallowly embedded: JS strings become Lean
`String` values (manipulated through their character lists), JS numbers
that hold integer values become `Int` (a possibly-NaN intermediate value
becomes `Option Int`, `none` standing for NaN), JS `Date` instants become
`Int` milliseconds on a timezone-free linear clock (days are uniform
86400000 ms; the source is documented as not supporting DST or timezones),
and `undefined`-able fields become `Option` fields.  The `new Date()`
calls inside the calculators are made explicit `now : Int` parameters.
-/

/-! ## JS string primitives -/

/-- Digit run to value: the numeric value of a list of decimal digit
characters, as produced by JS decimal integer parsing. -/
def jsDigitsToNat (cs : List Char) : Nat :=
  cs.foldl (fun acc c => 10 * acc + (c.toNat - 48)) 0

/-- Leading whitespace removal on a character list. -/
def dropLeadWS (cs : List Char) : List Char :=
  cs.dropWhile (fun c => c.isWhitespace)

/-- Model of JS String.prototype.trim: drop leading and trailing
whitespace. -/
def trimWS (cs : List Char) : List Char :=
  ((dropLeadWS cs).reverse.dropWhile (fun c => c.isWhitespace)).reverse

/-- Model of the JS Number() conversion restricted to decimal integer
literals: after trimming, the empty string converts to 0, a digit string
to its value, a minus sign followed by digits to the negated value, and
anything else to NaN (`none`).  The fields fed to it in this code base are
always of one of these shapes. -/
def jsNumberChars (cs : List Char) : Option Int :=
  let t := trimWS cs
  if t.isEmpty then some 0
  else if t.all (fun c => c.isDigit) then some ((jsDigitsToNat t : Nat) : Int)
  else
    match t with
    | '-' :: rest =>
      if !rest.isEmpty && rest.all (fun c => c.isDigit) then
        some (-((jsDigitsToNat rest : Nat) : Int))
      else none
    | _ => none

/-- Model of JS Number.parseInt with radix 10: after trimming, an optional
sign followed by the longest digit prefix; NaN (`none`) when no digits. -/
def jsParseIntChars (cs : List Char) : Option Int :=
  let digitsVal : List Char → Option Int := fun t =>
    let ds := t.takeWhile (fun c => c.isDigit)
    if ds.isEmpty then none else some ((jsDigitsToNat ds : Nat) : Int)
  let t := trimWS cs
  match t with
  | '-' :: rest => (digitsVal rest).map (fun n => -n)
  | '+' :: rest => digitsVal rest
  | _ => digitsVal t

/-- Model of JS String.prototype.split with a single-character separator:
every occurrence of the separator splits, empty pieces are kept, and the
empty string splits to one empty piece. -/
def splitOnChar (sep : Char) : List Char → List (List Char)
  | [] => [[]]
  | c :: rest =>
    let r := splitOnChar sep rest
    if c = sep then [] :: r
    else
      match r with
      | [] => [[c]]
      | g :: gs => (c :: g) :: gs

/-- Helper for `splitWS`: accumulates the current token (reversed). -/
def splitWSGo : List Char → List Char → List (List Char)
  | [], cur => [cur.reverse]
  | c :: rest, cur =>
    if c.isWhitespace then
      if cur.isEmpty then splitWSGo rest []
      else cur.reverse :: splitWSGo rest []
    else splitWSGo rest (c :: cur)

/-- Model of JS split on the whitespace-run regex, as applied to an
already trimmed string (runs of whitespace separate tokens; the empty
string yields one empty token). -/
def splitWS (cs : List Char) : List (List Char) :=
  splitWSGo cs []

/-- Model of the JS default string comparison (lexicographic by code
unit), used by Array.prototype.sort without a comparator. -/
def charListLt : List Char → List Char → Bool
  | _ :: _, [] => false
  | [], [] => false
  | [], _ :: _ => true
  | a :: as, b :: bs =>
    decide (a.toNat < b.toNat) || (decide (a.toNat = b.toNat) && charListLt as bs)

/-- Insertion step of the model of Array.prototype.sort on strings. -/
def jsInsertStr (x : String) : List String → List String
  | [] => [x]
  | y :: ys => if charListLt x.data y.data then x :: y :: ys else y :: jsInsertStr x ys

/-- Model of JS Array.prototype.sort on an array of strings (default
comparator, ascending lexicographic order); implemented as an insertion
sort, which agrees extensionally with the engine sort. -/
def jsSortStrings : List String → List String
  | [] => []
  | x :: xs => jsInsertStr x (jsSortStrings xs)

/-- Model of JS String.prototype.trim on a `String`. -/
def jsTrim (s : String) : String := ⟨trimWS s.data⟩

/-- Model of JS Array.prototype.join with separator `|`, as used by the
selection-repair change detection. -/
def joinPipe : List String → String
  | [] => ""
  | [x] => x
  | x :: y :: xs => x ++ "|" ++ joinPipe (y :: xs)

/-- Model of the ToLength coercion applied by Array.from to the length
property: NaN (`none`) and negative values clamp to 0. -/
def jsToLength : Option Int → Nat
  | none => 0
  | some i => i.toNat

/-- Math.ceil of the rational quotient of two integers (the divisor is
nonzero at every call site, since a zero step is replaced by 1). -/
def jsCeilDiv (a b : Int) : Int :=
  if 0 < b then (a + b - 1) / b else -(a / (-b))

/-! ## Time model

A JS Date instant is an `Int` of milliseconds.  The embedding ignores
timezones and DST (out of scope per the source), so every day is exactly
86400000 ms and day boundaries sit at multiples of it. -/

def msPerMinute : Int := 60000

def msPerHour : Int := 3600000

def msPerDay : Int := 86400000

/-- Midnight of the day containing `t`. -/
def startOfDay (t : Int) : Int := t - t % msPerDay

/-- Model of `const d = new Date(now); d.setDate(d.getDate() + off);
d.setHours(h, m, 0, 0)` - the instant `off` days after the day of `now`,
at wall-clock hour `h` and minute `m` (values outside the usual ranges
roll over exactly as in JS). -/
def atTime (now : Int) (off : Nat) (h m : Int) : Int :=
  startOfDay now + (off : Int) * msPerDay + h * msPerHour + m * msPerMinute

/-- Model of Date.prototype.getDay for the instant `t` (epoch day 0 is a
Thursday, index 4; Sunday is 0). -/
def dayOfWeek (t : Int) : Int := (t / msPerDay + 4) % 7

/-! ## ScheduleConfig and normalization -/

/-- The repeatMode union type of the source. -/
inductive RepeatMode
  | daily
  | weekly
  | interval
deriving DecidableEq

/-- The TriggerMode union type of the source. -/
inductive TriggerMode
  | scheduled
  | crontab
  | quota_reset
deriving DecidableEq

/-- The ScheduleConfig interface.  Optional TS fields become `Option`
fields (`none` models an absent key). -/
@[ext]
structure ScheduleConfig where
  repeatMode : RepeatMode
  dailyTimes : List String
  weeklyDays : List Int
  weeklyTimes : List String
  intervalHours : Int
  intervalStartTime : String
  intervalEndTime : String
  selectedModels : List String
  selectedAccounts : List String
  crontab : Option String := none
  wakeOnReset : Option Bool := none
  customPrompt : Option String := none
  maxOutputTokens : Option Int := none
  timeWindowEnabled : Option Bool := none
  timeWindowStart : Option String := none
  timeWindowEnd : Option String := none
  fallbackTimes : Option (List String) := none
deriving DecidableEq

/-- The DEFAULT_SCHEDULE constant. -/
def DEFAULT_SCHEDULE : ScheduleConfig :=
  { repeatMode := .daily
    dailyTimes := ["08:00"]
    weeklyDays := [1, 2, 3, 4, 5]
    weeklyTimes := ["08:00"]
    intervalHours := 4
    intervalStartTime := "07:00"
    intervalEndTime := "22:00"
    selectedModels := ["codex-hourly"]
    selectedAccounts := []
    maxOutputTokens := some 0 }

/-- The normalizeSchedule function: every empty (or absent, or for the
interval step non-positive) configuration field is replaced by its
default; all other fields pass through unchanged.  The JS truthiness
tests map as follows: `xs?.length` is `¬ xs.isEmpty`, `x && x > 0` on the
integer step is `0 < x` (NaN, which is also falsy, is outside the integer
model), `s || d` on a string is an emptiness test, and
`typeof v === number` on an optional number is an `Option.getD`. -/
def normalizeSchedule (s : ScheduleConfig) : ScheduleConfig :=
  { s with
    dailyTimes := if s.dailyTimes.isEmpty then ["08:00"] else s.dailyTimes
    weeklyDays := if s.weeklyDays.isEmpty then [1, 2, 3, 4, 5] else s.weeklyDays
    weeklyTimes := if s.weeklyTimes.isEmpty then ["08:00"] else s.weeklyTimes
    intervalHours := if 0 < s.intervalHours then s.intervalHours else 4
    intervalStartTime := if s.intervalStartTime.isEmpty then "07:00" else s.intervalStartTime
    intervalEndTime := if s.intervalEndTime.isEmpty then "22:00" else s.intervalEndTime
    maxOutputTokens := some (s.maxOutputTokens.getD 0)
    fallbackTimes :=
      some (match s.fallbackTimes with
        | some (t :: ts) => t :: ts
        | _ => ["07:00"]) }

/-- Model of the object spread while merging stored data over defaults,
`{ ...DEFAULT_SCHEDULE, ...task.schedule }`: required fields always come
from the stored schedule; among the optional fields only maxOutputTokens
has a default (0), so an absent maxOutputTokens picks it up. -/
def mergeDefaults (s : ScheduleConfig) : ScheduleConfig :=
  { s with maxOutputTokens := some (s.maxOutputTokens.getD 0) }

/-- A schedule whose intervalHours is present and non-empty (the value
-3) yet is still replaced by the default 4, used to refute the claim that
only empty or absent fields are replaced. -/
def c6CounterSchedule : ScheduleConfig :=
  { repeatMode := .interval
    dailyTimes := ["08:00"]
    weeklyDays := [1, 2, 3, 4, 5]
    weeklyTimes := ["08:00"]
    intervalHours := -3
    intervalStartTime := "07:00"
    intervalEndTime := "22:00"
    selectedModels := ["codex-hourly"]
    selectedAccounts := ["a@example.com"]
    maxOutputTokens := some 0 }

/-- C6 counterexample: normalizeSchedule replaces a present, non-empty
(but non-positive) intervalHours value with the default 4, so it is not
true that only empty or absent fields are replaced by defaults. -/
theorem c6_counterexample :
    c6CounterSchedule.intervalHours = -3 ∧
    (normalizeSchedule c6CounterSchedule).intervalHours = 4 := by
  constructor
  · rfl
  · rfl

/-- C6 (amended): normalizeSchedule is idempotent; a non-empty dailyTimes,
weeklyDays, weeklyTimes or fallbackTimes list passes through exactly;
empty or absent list fields, an empty interval window bound, and a
non-positive (not merely absent) intervalHours are replaced by the
documented defaults (08:00, weekdays, 4 hours, 07:00 to 22:00, 07:00). -/
theorem c6_normalize (s : ScheduleConfig) :
    normalizeSchedule (normalizeSchedule s) = normalizeSchedule s ∧
    (s.dailyTimes ≠ [] → (normalizeSchedule s).dailyTimes = s.dailyTimes) ∧
    (s.weeklyDays ≠ [] → (normalizeSchedule s).weeklyDays = s.weeklyDays) ∧
    (s.weeklyTimes ≠ [] → (normalizeSchedule s).weeklyTimes = s.weeklyTimes) ∧
    (∀ l, s.fallbackTimes = some l → l ≠ [] →
      (normalizeSchedule s).fallbackTimes = some l) ∧
    (0 < s.intervalHours → (normalizeSchedule s).intervalHours = s.intervalHours) ∧
    (s.intervalStartTime ≠ "" →
      (normalizeSchedule s).intervalStartTime = s.intervalStartTime) ∧
    (s.intervalEndTime ≠ "" →
      (normalizeSchedule s).intervalEndTime = s.intervalEndTime) ∧
    (s.dailyTimes = [] → (normalizeSchedule s).dailyTimes = ["08:00"]) ∧
    (s.weeklyDays = [] → (normalizeSchedule s).weeklyDays = [1, 2, 3, 4, 5]) ∧
    (s.weeklyTimes = [] → (normalizeSchedule s).weeklyTimes = ["08:00"]) ∧
    (¬ 0 < s.intervalHours → (normalizeSchedule s).intervalHours = 4) ∧
    (s.intervalStartTime = "" → (normalizeSchedule s).intervalStartTime = "07:00") ∧
    (s.intervalEndTime = "" → (normalizeSchedule s).intervalEndTime = "22:00") ∧
    ((s.fallbackTimes = none ∨ s.fallbackTimes = some []) →
      (normalizeSchedule s).fallbackTimes = some ["07:00"]) ∧
    (normalizeSchedule s).selectedAccounts = s.selectedAccounts ∧
    (normalizeSchedule s).selectedModels = s.selectedModels := by
  refine ⟨?_, ?_, ?_, ?_, ?_, ?_, ?_, ?_, ?_, ?_, ?_, ?_, ?_, ?_, ?_, ?_, ?_⟩
  · cases s with
    | mk rm dt wd wt ih ist iet sm sa cr wr cp mot twe tws twen ft =>
      apply ScheduleConfig.ext <;> simp only [normalizeSchedule] <;>
        first
          | rfl
          | (split_ifs <;> simp_all)
          | (rcases ft with _ | ⟨_ | ⟨t, ts⟩⟩ <;> rfl)
  · intro h
    simp [normalizeSchedule, List.isEmpty_iff, h]
  · intro h
    simp [normalizeSchedule, List.isEmpty_iff, h]
  · intro h
    simp [normalizeSchedule, List.isEmpty_iff, h]
  · intro l hl hne
    cases l with
    | nil => exact absurd rfl hne
    | cons t ts => simp [normalizeSchedule, hl]
  · intro h
    simp [normalizeSchedule, h]
  · intro h
    have : ¬ s.intervalStartTime.isEmpty := by
      simpa [String.isEmpty_iff] using h
    simp [normalizeSchedule, this]
  · intro h
    have : ¬ s.intervalEndTime.isEmpty := by
      simpa [String.isEmpty_iff] using h
    simp [normalizeSchedule, this]
  · intro h
    simp [normalizeSchedule, h]
  · intro h
    simp [normalizeSchedule, h]
  · intro h
    simp [normalizeSchedule, h]
  · intro h
    simp [normalizeSchedule, h]
  · intro h
    have : s.intervalStartTime.isEmpty := by simp [String.isEmpty_iff, h]
    simp [normalizeSchedule, this]
  · intro h
    have : s.intervalEndTime.isEmpty := by simp [String.isEmpty_iff, h]
    simp [normalizeSchedule, this]
  · rintro (h | h) <;> simp [normalizeSchedule, h]
  · rfl
  · rfl

/-- C6 witness: the amended normalization facts evaluated at a concrete
schedule with non-empty user-chosen lists. -/
theorem c6_witness :
    normalizeSchedule (normalizeSchedule c6CounterSchedule) =
      normalizeSchedule c6CounterSchedule ∧
    (normalizeSchedule c6CounterSchedule).dailyTimes = ["08:00"] ∧
    (normalizeSchedule c6CounterSchedule).intervalHours = 4 := by
  refine ⟨(c6_normalize c6CounterSchedule).1, ?_, ?_⟩
  · exact (c6_normalize c6CounterSchedule).2.1 (by decide)
  · exact (c6_normalize c6CounterSchedule).2.2.2.2.2.2.2.2.2.2.2.1 (by decide)

/-! ## Recurrence calculator

The source loops (day offset outer loop, early `break` once `count`
results are pushed, final `slice(0, count)`) collect exactly the first
`count` future candidates in scan order; the embedding therefore
enumerates the candidates in scan order, filters the future ones and
takes `count`.  A candidate is `none` when the source would build an
Invalid Date (a NaN hour or minute), which fails every comparison and is
never pushed. -/

/-- Model of `const [h, m] = time.split(':').map(Number)`: the hour and
minute components of a time string, each NaN (`none`) when missing or
non-numeric. -/
def parseTimeHM (s : String) : Option Int × Option Int :=
  let parts := splitOnChar ':' s.data
  ((parts[0]?).bind jsNumberChars, (parts[1]?).bind jsNumberChars)

/-- The candidate instant for a time string on the day `off` days after
the day of `now`, or `none` for an Invalid Date. -/
def timeCandidate (now : Int) (off : Nat) (s : String) : Option Int :=
  match parseTimeHM s with
  | (some h, some m) => some (atTime now off h m)
  | _ => none

/-- Keep the valid candidates strictly after `now` (the `date > now`
test; an Invalid Date compares false). -/
def keepFuture (now : Int) (cands : List (Option Int)) : List Int :=
  cands.filterMap (fun c => c.bind (fun v => if now < v then some v else none))

/-- Daily-mode candidates in scan order: 7 day offsets, and within each
day the configured times in JS string sort order. -/
def dailyCandidates (times : List String) (now : Int) : List (Option Int) :=
  (List.range 7).flatMap (fun off => (jsSortStrings times).map (timeCandidate now off))

/-- Weekly-mode candidates in scan order: 14 day offsets, days filtered
by membership of the day of week in weeklyDays, and within each selected
day the configured times in JS string sort order. -/
def weeklyCandidates (config : ScheduleConfig) (now : Int) : List (Option Int) :=
  (List.range 14).flatMap (fun off =>
    if config.weeklyDays.contains (dayOfWeek (startOfDay now + (off : Int) * msPerDay)) then
      (jsSortStrings config.weeklyTimes).map (timeCandidate now off)
    else [])

/-- The hour values visited by `for (let h = startH; h <= endH; h += interval)`.
For a non-positive interval the source loop would not terminate whenever
startH does not exceed endH; the model is left empty there and every
theorem about interval mode assumes a positive step. -/
def intervalHourValues (startH endH interval : Int) : List Int :=
  if 0 < interval ∧ startH ≤ endH then
    (List.range ((endH - startH).toNat / interval.toNat + 1)).map
      (fun i : Nat => startH + interval * (i : Int))
  else []

/-- Interval-mode candidates in scan order: the start time string (with
fallback 07:00) supplies the start hour and the minute of every
candidate, the end time string (with fallback hour 22, parsed with
parseInt from the part before the colon) bounds the hours, and hours
step by intervalHours (with 0 falling back to 4).  A NaN start hour or
end hour gives an empty loop; a NaN minute gives Invalid Dates. -/
def intervalCandidates (config : ScheduleConfig) (now : Int) : List (Option Int) :=
  let startStr := if config.intervalStartTime.isEmpty then "07:00" else config.intervalStartTime
  let hm := parseTimeHM startStr
  let endH : Option Int :=
    if config.intervalEndTime.isEmpty then some 22
    else ((splitOnChar ':' config.intervalEndTime.data)[0]?).bind jsParseIntChars
  let interval : Int := if config.intervalHours = 0 then 4 else config.intervalHours
  match hm.1, endH with
  | some sh, some eh =>
    (List.range 7).flatMap (fun off =>
      (intervalHourValues sh eh interval).map (fun h =>
        match hm.2 with
        | some m => some (atTime now off h m)
        | none => none))
  | _, _ => []

/-- The calculateNextRuns function: future run instants for a schedule,
in scan order, truncated to `count`.  The branch structure mirrors the
source if/else-if chain (a daily or weekly mode with the required list
empty falls through to no candidates). -/
def calculateNextRuns (config : ScheduleConfig) (now : Int) (count : Nat) : List Int :=
  (if config.repeatMode = RepeatMode.daily ∧ ¬ config.dailyTimes.isEmpty then
    keepFuture now (dailyCandidates config.dailyTimes now)
  else if config.repeatMode = RepeatMode.weekly ∧ ¬ config.weeklyDays.isEmpty ∧
      ¬ config.weeklyTimes.isEmpty then
    keepFuture now (weeklyCandidates config now)
  else if config.repeatMode = RepeatMode.interval then
    keepFuture now (intervalCandidates config now)
  else []).take count

/-! ## Cron expression evaluator -/

/-- The parseField helper of calculateCrontabNextRuns, on the character
list of a field.  The branches are tested in source order: literal `*`,
then comma lists, then ranges, then steps, then a single number.  A list
element is `none` where JS would hold NaN.  In the range branch a NaN
bound makes the Array.from length NaN, which ToLength clamps to 0; a
negative length clamps to 0 as well. -/
def parseFieldChars (cs : List Char) (max : Nat) : List (Option Int) :=
  if cs = ['*'] then (List.range (max + 1)).map (fun i => some ((i : Int)))
  else if cs.contains ',' then (splitOnChar ',' cs).map jsNumberChars
  else if cs.contains '-' then
    let parts := splitOnChar '-' cs
    match (parts[0]?).bind jsNumberChars, (parts[1]?).bind jsNumberChars with
    | some a, some b =>
      (List.range (jsToLength (some (b - a + 1)))).map (fun i => some (a + (i : Int)))
    | _, _ => []
  else if cs.contains '/' then
    let step := (splitOnChar '/' cs)[1]?
    let stepValue : Int :=
      match step.bind jsNumberChars with
      | some v => if v = 0 then 1 else v
      | none => 1
    (List.range (jsToLength (some (jsCeilDiv ((max + 1 : Nat) : Int) stepValue)))).map
      (fun i => some ((i : Int) * stepValue))
  else [jsNumberChars cs]

/-- parseField on a `String` field. -/
def parseField (field : String) (max : Nat) : List (Option Int) :=
  parseFieldChars field.data max

/-- The calculateCrontabNextRuns function: trim and split the expression
on whitespace runs; fewer than 5 fields parse to no runs; otherwise only
the minute and hour fields are evaluated, candidates are scanned over 7
day offsets (hours outer, minutes inner) and the first `count` future
instants are returned. -/
def calculateCrontabNextRuns (crontab : String) (now : Int) (count : Nat) : List Int :=
  let parts := splitWS (trimWS crontab.data)
  if parts.length < 5 then []
  else
    let minutes := parseFieldChars ((parts[0]?).getD []) 59
    let hours := parseFieldChars ((parts[1]?).getD []) 23
    let cands := (List.range 7).flatMap (fun off =>
      hours.flatMap (fun oh =>
        minutes.map (fun om =>
          match oh, om with
          | some h, some m => some (atTime now off h m)
          | _, _ => none)))
    (keepFuture now cands).take count

/-- C2 counterexample: a field combining a range and a step, such as
`1-10/2`, is consumed by the range branch (tested before the step
branch); its end bound fails to parse as a number, so the parsed value
list is empty rather than the multiples of the step up to the field
maximum. -/
theorem c2_counterexample :
    parseField "1-10/2" 59 = [] ∧
    parseField "1-10/2" 59 ≠ (List.range 30).map (fun i => some ((i : Int) * 2)) := by
  constructor
  · rfl
  · decide

/-! ## Character and parsing lemmas -/

lemma isDigit_ne_of {c d : Char} (h : c.isDigit = true) (hd : d.isDigit = false) : c ≠ d := by
  rintro rfl
  simp [h] at hd

lemma not_ws_of_isDigit {c : Char} (h : c.isDigit = true) : c.isWhitespace = false := by
  rcases hw : c.isWhitespace with _ | _
  · rfl
  · exfalso
    simp only [Char.isWhitespace, Bool.or_eq_true, beq_iff_eq, decide_eq_true_eq] at hw
    rcases hw with ((rfl | rfl) | rfl) | rfl <;> exact absurd h (by decide)

lemma dropWhile_eq_self_of {p : Char → Bool} {cs : List Char}
    (h : ∀ c ∈ cs, p c = false) : cs.dropWhile p = cs := by
  cases cs with
  | nil => rfl
  | cons c rest => simp [List.dropWhile_cons, h c (by simp)]

lemma trimWS_eq_self {cs : List Char} (h : ∀ c ∈ cs, c.isWhitespace = false) :
    trimWS cs = cs := by
  unfold trimWS dropLeadWS
  rw [dropWhile_eq_self_of h]
  rw [dropWhile_eq_self_of (by intro c hc; exact h c (by simpa using hc))]
  exact List.reverse_reverse cs

lemma splitOnChar_no_sep {sep : Char} {cs : List Char} (h : ∀ c ∈ cs, c ≠ sep) :
    splitOnChar sep cs = [cs] := by
  induction cs with
  | nil => rfl
  | cons c rest ih =>
    have hrest : splitOnChar sep rest = [rest] := ih (fun x hx => h x (by simp [hx]))
    simp [splitOnChar, hrest, h c (by simp)]

lemma splitOnChar_append {sep : Char} {xs ys : List Char} (h : ∀ c ∈ xs, c ≠ sep) :
    splitOnChar sep (xs ++ sep :: ys) = xs :: splitOnChar sep ys := by
  induction xs with
  | nil => simp [splitOnChar]
  | cons x rest ih =>
    have hrest := ih (fun c hc => h c (by simp [hc]))
    have hx : x ≠ sep := h x (by simp)
    show splitOnChar sep (x :: (rest ++ sep :: ys)) = (x :: rest) :: splitOnChar sep ys
    simp only [splitOnChar, if_neg hx, List.append_eq, hrest]

lemma jsNumberChars_digits {cs : List Char} (hne : cs ≠ [])
    (h : ∀ c ∈ cs, c.isDigit = true) :
    jsNumberChars cs = some ((jsDigitsToNat cs : Nat) : Int) := by
  have htrim : trimWS cs = cs := trimWS_eq_self (fun c hc => not_ws_of_isDigit (h c hc))
  unfold jsNumberChars
  simp only [htrim]
  rw [if_neg (by simpa [List.isEmpty_iff] using hne), if_pos (by simpa [List.all_eq_true] using h)]

lemma jsNumberChars_slash {bmid brest : List Char}
    (hmid : ∀ c ∈ bmid, c.isDigit = true) (hrest : ∀ c ∈ brest, c.isDigit = true) :
    jsNumberChars (bmid ++ '/' :: brest) = none := by
  have hnw : ∀ c ∈ bmid ++ '/' :: brest, c.isWhitespace = false := by
    intro c hc
    rcases List.mem_append.mp hc with hc | hc
    · exact not_ws_of_isDigit (hmid c hc)
    · rcases List.mem_cons.mp hc with rfl | hc
      · rfl
      · exact not_ws_of_isDigit (hrest c hc)
  have htrim := trimWS_eq_self hnw
  have hnall : ((bmid ++ '/' :: brest).all fun c => c.isDigit) = false := by
    rcases hall : (bmid ++ '/' :: brest).all (fun c => c.isDigit) with _ | _
    · rfl
    · rw [List.all_eq_true] at hall
      exact absurd (hall '/' (by simp)) (by decide)
  unfold jsNumberChars
  simp only [htrim, hnall, Bool.false_eq_true, if_false]
  rw [if_neg (by simp)]
  cases bmid with
  | nil => rfl
  | cons c rest =>
    have hc : c.isDigit = true := hmid c (by simp)
    have hcne : c ≠ '-' := isDigit_ne_of hc (by decide)
    simp only [List.cons_append]
    split
    · rename_i heq
      injection heq with h1 h2
      exact absurd h1 hcne
    · rfl

/-- C2 (amended): a step field with a `*` start, `*/n` with n positive,
parses to the ceil((max+1)/n) values 0, n, 2n, ...; but a field that
combines an explicit range with a step, `a-b/n`, is consumed by the
range branch (tested before the step branch), where its end bound `b/n`
parses as NaN and the resulting value list is empty - not the multiples
of the step. -/
theorem c2_parseField_step (max n : Nat) (ds as bmid brest : List Char)
    (hne : ds ≠ []) (hds : ∀ c ∈ ds, c.isDigit = true)
    (hval : jsDigitsToNat ds = n) (hpos : 0 < n)
    (has : ∀ c ∈ as, c.isDigit = true)
    (hbmid : ∀ c ∈ bmid, c.isDigit = true)
    (hbrest : ∀ c ∈ brest, c.isDigit = true) :
    parseFieldChars ('*' :: '/' :: ds) max =
      (List.range ((max + n) / n)).map (fun i => some ((i : Int) * (n : Int))) ∧
    parseFieldChars (as ++ '-' :: (bmid ++ '/' :: brest)) max = [] := by
  constructor
  · have hstep : jsNumberChars ds = some ((n : Nat) : Int) := by
      rw [jsNumberChars_digits hne hds, hval]
    have hsplit : splitOnChar '/' ('*' :: '/' :: ds) = [['*'], ds] := by
      have h2 : splitOnChar '/' ds = [ds] :=
        splitOnChar_no_sep (fun c hc => isDigit_ne_of (hds c hc) (by decide))
      have h1 : splitOnChar '/' (['*'] ++ '/' :: ds) = ['*'] :: splitOnChar '/' ds :=
        splitOnChar_append (by intro c hc; simp at hc; subst hc; decide)
      simpa [h2] using h1
    have hcomma : (',' : Char) ∉ ('*' :: '/' :: ds) := by
      intro hm
      simp only [List.mem_cons] at hm
      rcases hm with h | h | hm
      · exact absurd h (by decide)
      · exact absurd h (by decide)
      · exact absurd (hds ',' hm) (by decide)
    have hdash : ('-' : Char) ∉ ('*' :: '/' :: ds) := by
      intro hm
      simp only [List.mem_cons] at hm
      rcases hm with h | h | hm
      · exact absurd h (by decide)
      · exact absurd h (by decide)
      · exact absurd (hds '-' hm) (by decide)
    have hnzero : ((n : Nat) : Int) ≠ 0 := by omega
    have hcast : ((max + 1 : Nat) : Int) + ((n : Nat) : Int) - 1 = ((max + n : Nat) : Int) := by
      omega
    have hceil : jsCeilDiv ((max : Int) + 1) ((n : Nat) : Int) =
        (((max + n) / n : Nat) : Int) := by
      unfold jsCeilDiv
      rw [if_pos (by omega : (0 : Int) < ((n : Nat) : Int))]
      rw [(by omega : (max : Int) + 1 + ((n : Nat) : Int) - 1 = ((max + n : Nat) : Int))]
      exact_mod_cast (Int.ofNat_ediv (max + n) n).symm
    unfold parseFieldChars
    rw [if_neg (by simp), if_neg (by simp [hcomma]), if_neg (by simp [hdash]),
      if_pos (by simp)]
    rw [hsplit]
    simp only [List.getElem?_cons_succ, List.getElem?_cons_zero, Option.some_bind, hstep]
    have hdiv : (((max : Int) + (n : Int)) / (n : Int)).toNat = (max + n) / n := by
      rw [(by push_cast; ring : ((max : Int) + (n : Int)) = ((max + n : Nat) : Int))]
      rw [← Int.ofNat_ediv]
      exact Int.toNat_ofNat _
    simp [hnzero, hceil, jsToLength, hdiv]
  · have hrange : jsNumberChars (bmid ++ '/' :: brest) = none :=
      jsNumberChars_slash hbmid hbrest
    have hsplit2 : splitOnChar '-' (bmid ++ '/' :: brest) = [bmid ++ '/' :: brest] := by
      apply splitOnChar_no_sep
      intro c hc
      rcases List.mem_append.mp hc with hc | hc
      · exact isDigit_ne_of (hbmid c hc) (by decide)
      · rcases List.mem_cons.mp hc with rfl | hc
        · decide
        · exact isDigit_ne_of (hbrest c hc) (by decide)
    have hsplit1 : splitOnChar '-' (as ++ '-' :: (bmid ++ '/' :: brest)) =
        as :: [bmid ++ '/' :: brest] := by
      rw [splitOnChar_append (fun c hc => isDigit_ne_of (has c hc) (by decide)), hsplit2]
    have hstar : as ++ '-' :: (bmid ++ '/' :: brest) ≠ ['*'] := by
      intro heq
      have hmem : ('-' : Char) ∈ as ++ '-' :: (bmid ++ '/' :: brest) := by simp
      rw [heq] at hmem
      simp at hmem
    have hcomma : (',' : Char) ∉ as ++ '-' :: (bmid ++ '/' :: brest) := by
      intro hm
      rcases List.mem_append.mp hm with hm | hm
      · exact absurd (has ',' hm) (by decide)
      · rcases List.mem_cons.mp hm with h | hm
        · exact absurd h (by decide)
        · rcases List.mem_append.mp hm with hm | hm
          · exact absurd (hbmid ',' hm) (by decide)
          · rcases List.mem_cons.mp hm with h | hm
            · exact absurd h (by decide)
            · exact absurd (hbrest ',' hm) (by decide)
    have hfirst : ∃ v, jsNumberChars as = some v := by
      cases has2 : as with
      | nil => exact ⟨0, rfl⟩
      | cons c rest =>
        subst has2
        exact ⟨((jsDigitsToNat (c :: rest) : Nat) : Int),
          jsNumberChars_digits (by simp) has⟩
    obtain ⟨v, hv⟩ := hfirst
    unfold parseFieldChars
    rw [if_neg hstar, if_neg (by simp [hcomma]), if_pos (by simp), hsplit1]
    simp only [List.getElem?_cons_succ, List.getElem?_cons_zero, Option.some_bind, hv, hrange]

/-- C2 witness: the step and range-with-step behaviors at the concrete
fields star-slash-2 and 1-10/2 over the minute range. -/
theorem c2_witness :
    parseFieldChars ('*' :: '/' :: ['2']) 59 =
      (List.range ((59 + 2) / 2)).map (fun i => some ((i : Int) * ((2 : Nat) : Int))) ∧
    parseFieldChars (['1'] ++ '-' :: (['1', '0'] ++ '/' :: ['2'])) 59 = [] :=
  c2_parseField_step 59 2 ['2'] ['1'] ['1', '0'] ['2'] (by decide) (by decide)
    (by decide) (by decide) (by decide) (by decide) (by decide)

/-! ## Candidate list lemmas -/

lemma keepFuture_map_some (now : Int) (vals : List Int) :
    keepFuture now (vals.map some) = vals.filter (fun v => decide (now < v)) := by
  induction vals with
  | nil => rfl
  | cons v rest ih =>
    unfold keepFuture at ih ⊢
    simp only [List.map_cons, List.filterMap_cons, Option.some_bind]
    by_cases h : now < v
    · simp [h, List.filter_cons, ih]
    · simp [h, List.filter_cons, ih]

lemma flatMap_singleton {α β : Type} (l : List α) (f : α → β) :
    l.flatMap (fun x => [f x]) = l.map f := by
  induction l with
  | nil => rfl
  | cons x rest ih => simp [List.flatMap_cons, ih]

lemma head?_take_of_pos {α : Type} (x : α) (xs : List α) {n : Nat} (hn : 1 ≤ n) :
    (List.take n (x :: xs)).head? = some x := by
  obtain ⟨m, rfl⟩ : ∃ m, n = m + 1 := ⟨n - 1, by omega⟩
  simp [List.take_succ_cons]

/-- C5: the cron expression `0 9 * * *` evaluated at 10:00 of any day d
produces 09:00 of day d+1 as its first run (the 09:00 of day d has
passed); and any expression with fewer than 5 whitespace-separated
fields evaluates to the empty sequence. -/
theorem c5_crontab :
    (∀ (d : Int) (count : Nat), 1 ≤ count →
      (calculateCrontabNextRuns "0 9 * * *" (d * msPerDay + 10 * msPerHour) count).head? =
        some (d * msPerDay + msPerDay + 9 * msPerHour)) ∧
    (∀ (s : String) (now : Int) (count : Nat),
      (splitWS (trimWS s.data)).length < 5 → calculateCrontabNextRuns s now count = []) := by
  constructor
  · intro d count hcount
    obtain ⟨k, rfl⟩ : ∃ k, count = k + 1 := ⟨count - 1, by omega⟩
    set now := d * msPerDay + 10 * msPerHour with hnow
    simp only [calculateCrontabNextRuns]
    rw [show splitWS (trimWS ("0 9 * * *".data)) = [['0'], ['9'], ['*'], ['*'], ['*']] from
      by decide]
    rw [if_neg (by simp)]
    simp only [List.getElem?_cons_zero, List.getElem?_cons_succ, Option.getD_some]
    rw [show parseFieldChars ['0'] 59 = [some 0] from by decide,
      show parseFieldChars ['9'] 23 = [some 9] from by decide]
    have hcands : (List.range 7).flatMap (fun off =>
        ([some (9 : Int)]).flatMap (fun oh =>
          ([some (0 : Int)]).map (fun om =>
            match oh, om with
            | some h, some m => some (atTime now off h m)
            | _, _ => none))) =
        ((List.range 7).map (fun off => atTime now off 9 0)).map some := by
      simp [flatMap_singleton, Function.comp]
    rw [hcands, keepFuture_map_some]
    have hsod : startOfDay now = d * msPerDay := by
      rw [hnow]
      unfold startOfDay msPerDay msPerHour
      omega
    have hval : ∀ off : Nat, atTime now off 9 0 =
        d * msPerDay + (off : Int) * msPerDay + 9 * msPerHour := by
      intro off
      unfold atTime msPerMinute
      rw [hsod]
      ring
    have h0 : (decide (now < atTime now 0 9 0)) = false := by
      rw [hval 0, hnow]
      unfold msPerDay msPerHour
      simp only [decide_eq_false_iff_not]
      push_cast
      omega
    have h1 : (decide (now < atTime now 1 9 0)) = true := by
      rw [hval 1, hnow]
      unfold msPerDay msPerHour
      simp only [decide_eq_true_eq]
      push_cast
      omega
    rw [show List.range 7 = 0 :: 1 :: [2, 3, 4, 5, 6] from rfl]
    rw [List.map_cons, List.map_cons, List.filter_cons, h0, List.filter_cons, h1]
    rw [hval 1]
    push_cast
    ring_nf
    exact head?_take_of_pos _ _ (by omega)
  · intro s now count h
    unfold calculateCrontabNextRuns
    rw [if_pos h]

/-- C5 witness: the first part at day 0 with count 1 and the second part
at the three-field expression `0 9 *`. -/
theorem c5_witness :
    (calculateCrontabNextRuns "0 9 * * *" (0 * msPerDay + 10 * msPerHour) 1).head? =
      some (0 * msPerDay + msPerDay + 9 * msPerHour) ∧
    calculateCrontabNextRuns "0 9 *" 123456 7 = [] :=
  ⟨c5_crontab.1 0 1 (by decide),
    c5_crontab.2 "0 9 *" 123456 7 (by decide)⟩

/-! ## Interval mode -/

lemma intervalHourValues_mem {sh eh I h : Int} (hI : 0 < I)
    (hmem : h ∈ intervalHourValues sh eh I) :
    ∃ i : Nat, h = sh + I * i ∧ sh ≤ h ∧ h ≤ eh := by
  unfold intervalHourValues at hmem
  by_cases hse : sh ≤ eh
  · rw [if_pos ⟨hI, hse⟩] at hmem
    obtain ⟨i, hi, hfi⟩ := List.mem_map.mp hmem
    have hiK := List.mem_range.mp hi
    refine ⟨i, hfi.symm, ?_, ?_⟩
    · have hnn : (0 : Int) ≤ I * i :=
        mul_nonneg hI.le (by exact_mod_cast Nat.zero_le i)
      omega
    · have h1 : i ≤ (eh - sh).toNat / I.toNat := by omega
      have h2 : I.toNat * ((eh - sh).toNat / I.toNat) ≤ (eh - sh).toNat := by
        calc I.toNat * ((eh - sh).toNat / I.toNat)
            = (eh - sh).toNat / I.toNat * I.toNat := Nat.mul_comm _ _
          _ ≤ (eh - sh).toNat := Nat.div_mul_le_self _ _
      have h3 : I.toNat * i ≤ I.toNat * ((eh - sh).toNat / I.toNat) :=
        Nat.mul_le_mul_left _ h1
      have h4 : ((I.toNat * i : Nat) : Int) ≤ ((eh - sh).toNat : Int) := by
        exact_mod_cast le_trans h3 h2
      push_cast at h4
      rw [Int.toNat_of_nonneg hI.le, Int.toNat_of_nonneg (by omega : (0 : Int) ≤ eh - sh)]
        at h4
      omega
  · rw [if_neg (by intro hand; exact hse hand.2)] at hmem
    exact absurd hmem (List.not_mem_nil h)

/-- An interval schedule as in the C8 scenario: every 4 hours between
07:00 and 22:00. -/
def c8Config : ScheduleConfig :=
  { repeatMode := .interval
    dailyTimes := ["08:00"]
    weeklyDays := [1, 2, 3, 4, 5]
    weeklyTimes := ["08:00"]
    intervalHours := 4
    intervalStartTime := "07:00"
    intervalEndTime := "22:00"
    selectedModels := ["codex-hourly"]
    selectedAccounts := ["a@example.com"]
    maxOutputTokens := some 0 }

/-- C8: the 4-hourly 07:00-22:00 schedule evaluated at 06:00 of any day
d yields 07:00 then 11:00 of day d as its first two runs; and for every
interval schedule with a positive step and well-formed window bounds,
every returned run is strictly after now, lands on one of the next 7
days at minute sm (the start minute), and its hour is sh + k *
intervalHours for some k, between the start hour and the end hour
inclusive. -/
theorem c8_interval :
    (∀ (d : Int) (count : Nat), 2 ≤ count →
      (calculateNextRuns c8Config (d * msPerDay + 6 * msPerHour) count).take 2 =
        [d * msPerDay + 7 * msPerHour, d * msPerDay + 11 * msPerHour]) ∧
    (∀ (config : ScheduleConfig) (now : Int) (count : Nat) (sh sm eh : Int),
      config.repeatMode = RepeatMode.interval →
      0 < config.intervalHours →
      ¬ config.intervalStartTime.isEmpty = true →
      parseTimeHM config.intervalStartTime = (some sh, some sm) →
      ¬ config.intervalEndTime.isEmpty = true →
      ((splitOnChar ':' config.intervalEndTime.data)[0]?).bind jsParseIntChars = some eh →
      ∀ c ∈ calculateNextRuns config now count,
        now < c ∧
        ∃ (off : Nat) (i : Nat), off < 7 ∧
          sh ≤ sh + config.intervalHours * i ∧
          sh + config.intervalHours * i ≤ eh ∧
          c = atTime now off (sh + config.intervalHours * i) sm) := by
  constructor
  · intro d count hcount
    set now := d * msPerDay + 6 * msPerHour with hnow
    have hsod : startOfDay now = d * msPerDay := by
      rw [hnow]
      unfold startOfDay msPerDay msPerHour
      omega
    simp only [calculateNextRuns]
    rw [if_neg (by simp [c8Config]), if_neg (by simp [c8Config]), if_pos (by rfl)]
    have hcands : intervalCandidates c8Config now =
        ((List.range 7).flatMap (fun off =>
          ([7, 11, 15, 19] : List Int).map (fun h => atTime now off h 0))).map some := by
      rfl
    rw [hcands, keepFuture_map_some]
    have hall : ∀ v ∈ (List.range 7).flatMap (fun off =>
        ([7, 11, 15, 19] : List Int).map (fun h => atTime now off h 0)),
        decide (now < v) = true := by
      intro v hv
      obtain ⟨off, hoff, hv⟩ := List.mem_flatMap.mp hv
      obtain ⟨h, hh, rfl⟩ := List.mem_map.mp hv
      rw [decide_eq_true_eq]
      have hoffnn : (0 : Int) ≤ (off : Int) * 86400000 := by positivity
      unfold atTime msPerMinute msPerHour msPerDay
      rw [hsod]
      fin_cases hh <;> (rw [hnow]; unfold msPerDay msPerHour; omega)
    rw [List.filter_eq_self.mpr hall]
    rw [List.take_take, show min 2 count = 2 from by omega]
    rw [show List.range 7 = 0 :: [1, 2, 3, 4, 5, 6] from rfl]
    rw [List.flatMap_cons]
    simp only [List.map_cons, List.map_nil, List.cons_append, List.take_succ_cons,
      List.take_zero]
    unfold atTime msPerMinute msPerHour msPerDay
    rw [hsod]
    simp only [msPerDay]
    simp only [List.cons.injEq, and_true]
    refine ⟨?_, ?_⟩ <;> (push_cast; ring)
  · intro config now count sh sm eh hmode hpos hne1 hhm hne2 hend c hc
    have hIne0 : ¬ config.intervalHours = 0 := by omega
    simp only [calculateNextRuns] at hc
    rw [if_neg (by simp [hmode]), if_neg (by simp [hmode]), if_pos hmode] at hc
    have hc2 := List.mem_of_mem_take hc
    obtain ⟨oc, hoc, hg⟩ := List.mem_filterMap.mp hc2
    have hcands : intervalCandidates config now =
        (List.range 7).flatMap (fun off =>
          (intervalHourValues sh eh config.intervalHours).map
            (fun h => some (atTime now off h sm))) := by
      simp only [intervalCandidates]
      rw [if_neg hne1, hhm, if_neg hne2, hend, if_neg hIne0]
    rw [hcands] at hoc
    obtain ⟨off, hoff, hoc⟩ := List.mem_flatMap.mp hoc
    obtain ⟨h, hh, rfl⟩ := List.mem_map.mp hoc
    simp only [Option.some_bind] at hg
    have hlt : now < atTime now off h sm := by
      by_cases hl : now < atTime now off h sm
      · exact hl
      · rw [if_neg hl] at hg
        exact absurd hg (by simp)
    rw [if_pos hlt] at hg
    obtain rfl : atTime now off h sm = c := by simpa using hg
    obtain ⟨i, rfl, hle1, hle2⟩ := intervalHourValues_mem hpos hh
    exact ⟨hlt, off, i, List.mem_range.mp hoff, hle1, hle2, rfl⟩

/-- C8 witness: the interval facts evaluated at day 0 with count 2, and
the universal part applied to the first returned run of the concrete
4-hourly schedule. -/
theorem c8_witness :
    (calculateNextRuns c8Config (0 * msPerDay + 6 * msPerHour) 2).take 2 =
      [0 * msPerDay + 7 * msPerHour, 0 * msPerDay + 11 * msPerHour] ∧
    ((0 : Int) * msPerDay + 6 * msPerHour < 25200000 ∧
      ∃ (off i : Nat), off < 7 ∧
        (7 : Int) ≤ 7 + c8Config.intervalHours * i ∧
        7 + c8Config.intervalHours * i ≤ 22 ∧
        (25200000 : Int) = atTime (0 * msPerDay + 6 * msPerHour) off
          (7 + c8Config.intervalHours * i) 0) :=
  ⟨c8_interval.1 0 2 (by decide),
    c8_interval.2 c8Config (0 * msPerDay + 6 * msPerHour) 2 7 0 22 rfl (by decide)
      (by decide) (by decide) (by decide) (by decide) 25200000 (by decide)⟩

/-! ## History log -/

/-- The HistoryTriggerType union. -/
inductive HistoryTriggerType
  | manual
  | auto
deriving DecidableEq

/-- The HistoryTriggerSource union. -/
inductive HistoryTriggerSource
  | scheduled
  | crontab
  | quota_reset
  | manual
deriving DecidableEq

/-- The WakeupHistoryRecord interface. -/
structure WakeupHistoryRecord where
  id : String
  timestamp : Int
  triggerType : HistoryTriggerType
  triggerSource : HistoryTriggerSource
  taskName : Option String := none
  accountEmail : String
  modelId : String
  prompt : Option String := none
  success : Bool
  message : Option String := none
  duration : Option Int := none
deriving DecidableEq

/-- A record as it arrives from the persisted store before the load
filter: the timestamp may be missing or non-numeric (`none`). -/
structure RawHistoryRecord where
  timestamp : Option Int
  id : String
  triggerType : HistoryTriggerType
  triggerSource : HistoryTriggerSource
  taskName : Option String := none
  accountEmail : String
  modelId : String
  prompt : Option String := none
  success : Bool
  message : Option String := none
  duration : Option Int := none

/-- The load filter `item && typeof item.timestamp === 'number'` keeps a
raw record only when its timestamp is a number. -/
def toHistoryRecord? (r : RawHistoryRecord) : Option WakeupHistoryRecord :=
  match r.timestamp with
  | some ts =>
    some
      { id := r.id
        timestamp := ts
        triggerType := r.triggerType
        triggerSource := r.triggerSource
        taskName := r.taskName
        accountEmail := r.accountEmail
        modelId := r.modelId
        prompt := r.prompt
        success := r.success
        message := r.message
        duration := r.duration }
  | none => none

/-- Insertion step of the model of `.sort((a, b) => b.timestamp - a.timestamp)`. -/
def insertByTimestampDesc (x : WakeupHistoryRecord) :
    List WakeupHistoryRecord → List WakeupHistoryRecord
  | [] => [x]
  | y :: ys =>
    if x.timestamp ≤ y.timestamp then y :: insertByTimestampDesc x ys
    else x :: y :: ys

/-- Model of the JS sort with comparator `b.timestamp - a.timestamp`
(descending by timestamp), as an insertion sort. -/
def sortByTimestampDesc : List WakeupHistoryRecord → List WakeupHistoryRecord
  | [] => []
  | x :: xs => insertByTimestampDesc x (sortByTimestampDesc xs)

/-- The MAX_HISTORY_ITEMS capacity constant. -/
def MAX_HISTORY_ITEMS : Nat := 100

/-- The appendHistoryRecords function: empty input is a no-op, otherwise
the new records are merged in front of the previous ones, the whole list
is re-sorted by timestamp descending and truncated to the capacity. -/
def appendHistoryRecords (records prev : List WakeupHistoryRecord) :
    List WakeupHistoryRecord :=
  if records.isEmpty then prev
  else (sortByTimestampDesc (records ++ prev)).take MAX_HISTORY_ITEMS

/-- The loadHistory function: drop items without a numeric timestamp,
sort descending, truncate to the capacity.  (A failed backend call also
yields the empty list, which this already covers via the empty input.) -/
def loadHistory (raw : List (Option RawHistoryRecord)) : List WakeupHistoryRecord :=
  (sortByTimestampDesc (raw.filterMap (fun item => item.bind toHistoryRecord?))).take
    MAX_HISTORY_ITEMS

/-- An operation against the in-memory history state. -/
inductive HistoryOp
  | load (raw : List (Option RawHistoryRecord))
  | append (records : List WakeupHistoryRecord)

/-- One step: load replaces the state, append merges into it. -/
def historyStep (st : List WakeupHistoryRecord) : HistoryOp → List WakeupHistoryRecord
  | .load raw => loadHistory raw
  | .append records => appendHistoryRecords records st

/-- The state after a sequence of operations, from the initial empty log. -/
def runHistoryOps (ops : List HistoryOp) : List WakeupHistoryRecord :=
  ops.foldl historyStep []

/-- Recency order: every record comes no later than all records after it. -/
def SortedByTimestampDesc (l : List WakeupHistoryRecord) : Prop :=
  l.Pairwise (fun a b => b.timestamp ≤ a.timestamp)

lemma mem_insertByTimestampDesc {x a : WakeupHistoryRecord}
    {l : List WakeupHistoryRecord} (h : a ∈ insertByTimestampDesc x l) :
    a = x ∨ a ∈ l := by
  induction l with
  | nil => simpa [insertByTimestampDesc] using h
  | cons y ys ih =>
    unfold insertByTimestampDesc at h
    by_cases hc : x.timestamp ≤ y.timestamp
    · rw [if_pos hc] at h
      rcases List.mem_cons.mp h with rfl | h
      · exact Or.inr (by simp)
      · rcases ih h with rfl | h
        · exact Or.inl rfl
        · exact Or.inr (by simp [h])
    · rw [if_neg hc] at h
      rcases List.mem_cons.mp h with rfl | h
      · exact Or.inl rfl
      · exact Or.inr h

lemma sorted_insertByTimestampDesc {x : WakeupHistoryRecord}
    {l : List WakeupHistoryRecord} (hl : SortedByTimestampDesc l) :
    SortedByTimestampDesc (insertByTimestampDesc x l) := by
  induction l with
  | nil => simp [insertByTimestampDesc, SortedByTimestampDesc]
  | cons y ys ih =>
    unfold insertByTimestampDesc
    have hy := (List.pairwise_cons.mp hl).1
    have hys := (List.pairwise_cons.mp hl).2
    by_cases hc : x.timestamp ≤ y.timestamp
    · rw [if_pos hc]
      refine List.pairwise_cons.mpr ⟨?_, ih hys⟩
      intro a ha
      rcases mem_insertByTimestampDesc ha with rfl | ha
      · exact hc
      · exact hy a ha
    · rw [if_neg hc]
      refine List.pairwise_cons.mpr ⟨?_, hl⟩
      intro a ha
      rcases List.mem_cons.mp ha with rfl | ha
      · omega
      · have := hy a ha
        omega

lemma sorted_sortByTimestampDesc (l : List WakeupHistoryRecord) :
    SortedByTimestampDesc (sortByTimestampDesc l) := by
  induction l with
  | nil => exact List.Pairwise.nil
  | cons x xs ih => exact sorted_insertByTimestampDesc ih

/-- C3: starting from the empty log, after any sequence of load and
append operations the in-memory history never holds more than 100
records and is sorted by timestamp descending. -/
theorem c3_history_invariant (ops : List HistoryOp) :
    (runHistoryOps ops).length ≤ MAX_HISTORY_ITEMS ∧
    SortedByTimestampDesc (runHistoryOps ops) := by
  have hstep : ∀ (st : List WakeupHistoryRecord) (op : HistoryOp),
      st.length ≤ MAX_HISTORY_ITEMS → SortedByTimestampDesc st →
      (historyStep st op).length ≤ MAX_HISTORY_ITEMS ∧
        SortedByTimestampDesc (historyStep st op) := by
    intro st op hlen hsort
    cases op with
    | load raw =>
      refine ⟨List.length_take_le _ _, ?_⟩
      exact (sorted_sortByTimestampDesc _).sublist (List.take_sublist _ _)
    | append records =>
      simp only [historyStep, appendHistoryRecords]
      by_cases h : records.isEmpty
      · rw [if_pos h]
        exact ⟨hlen, hsort⟩
      · rw [if_neg h]
        refine ⟨List.length_take_le _ _, ?_⟩
        exact (sorted_sortByTimestampDesc _).sublist (List.take_sublist _ _)
  have hgen : ∀ (ops : List HistoryOp) (st : List WakeupHistoryRecord),
      st.length ≤ MAX_HISTORY_ITEMS → SortedByTimestampDesc st →
      (ops.foldl historyStep st).length ≤ MAX_HISTORY_ITEMS ∧
        SortedByTimestampDesc (ops.foldl historyStep st) := by
    intro ops
    induction ops with
    | nil => intro st h1 h2; exact ⟨h1, h2⟩
    | cons op rest ih =>
      intro st h1 h2
      have := hstep st op h1 h2
      exact ih _ this.1 this.2
  exact hgen ops [] (by simp [MAX_HISTORY_ITEMS]) List.Pairwise.nil

/-! ## Fan-out execution -/

/-- The default wake prompt constant. -/
def DEFAULT_PROMPT : String := "hi"

/-- The reply/usage payload returned by a successful wake call. -/
structure CodexWakeupInvokeResult where
  reply : String
  promptTokens : Option Int := none
  completionTokens : Option Int := none
  totalTokens : Option Int := none
  traceId : Option String := none
  responseId : Option String := none
  durationMs : Option Int := none
deriving DecidableEq

/-- The settlement of one action, as observed by Promise.allSettled:
fulfilled with a value or rejected with a reason (modeled as the
formatted message of the reason). -/
inductive SettledResult
  | fulfilled (value : CodexWakeupInvokeResult)
  | rejected (reason : String)
deriving DecidableEq

/-- An account as used by the fan-out (resolved from the store). -/
structure FanAccount where
  id : String
  email : String
deriving DecidableEq

/-- Model of the i18n translator: a key and interpolation options (as
key-value strings) to localized text.  Message content is presentation
only; no claim depends on it. -/
def Translator : Type := String → List (String × String) → String

/-- Model of formatErrorMessage on an already-extracted reason string. -/
def formatErrorMessage (reason : String) : String := reason

/-- Model of JS Array.prototype.join with an arbitrary separator. -/
def joinSep (sep : String) : List String → String
  | [] => ""
  | [x] => x
  | x :: y :: xs => x ++ sep ++ joinSep sep (y :: xs)

/-- The formatWakeupMessage function: reply text (or a no-reply
placeholder), plus a parenthesized detail list built from the duration,
token counts and trace id when present. -/
def formatWakeupMessage (modelId : String) (result : CodexWakeupInvokeResult)
    (durationMs : Option Int) (t : Translator) : String :=
  let reply :=
    if (jsTrim result.reply).isEmpty then t "wakeup.format.noReply" []
    else jsTrim result.reply
  let durDetails :=
    match durationMs with
    | some ms => [t "wakeup.format.durationMs" [("ms", toString ms)]]
    | none => []
  let tokenDetails :=
    if result.promptTokens ≠ none ∨ result.totalTokens ≠ none then
      [t "wakeup.format.tokens"
        [("prompt", (result.promptTokens.map toString).getD "?"),
         ("completion", (result.completionTokens.map toString).getD "?"),
         ("total", (result.totalTokens.map toString).getD "?")]]
    else []
  let traceDetails :=
    match result.traceId with
    | some tid => if tid.isEmpty then [] else [t "wakeup.format.traceId" [("traceId", tid)]]
    | none => []
  let details := durDetails ++ tokenDetails ++ traceDetails
  let joiner := t "wakeup.format.detailJoiner" []
  let suffix := if details.isEmpty then "" else " (" ++ joinSep joiner details ++ ")"
  t "wakeup.format.message" [("model", modelId), ("reply", reply), ("suffix", suffix)]

/-- The normalizeMaxOutputTokens helper: a positive explicit value wins,
else a non-negative fallback, else 0. -/
def normalizeMaxOutputTokens (value fallback : Int) : Int :=
  if 0 < value then value
  else if 0 ≤ fallback then fallback
  else 0

/-- The call matrix: the Cartesian product of the selected accounts and
the selected models, account-major as in the nested forEach. -/
def fanOutActions (accounts : List FanAccount) (models : List String) :
    List (FanAccount × String) :=
  accounts.flatMap (fun a => models.map (fun m => (a, m)))

/-- One history item folded from a settled action, as in the map over
allSettled results.  The id uses the timestamp-index fallback branch of
the source (randomUUID is nondeterministic and out of the model). -/
def mkHistoryItem (t : Translator) (promptText : String) (timestamp : Int)
    (index : Nat) (action : FanAccount × String) (res : SettledResult)
    (elapsed : FanAccount × String → Int) : WakeupHistoryRecord :=
  let duration :=
    match res with
    | .fulfilled v => v.durationMs.getD (elapsed action)
    | .rejected _ => elapsed action
  let message :=
    match res with
    | .fulfilled v => some (formatWakeupMessage action.2 v (some duration) t)
    | .rejected reason => some (formatErrorMessage reason)
  { id := toString timestamp ++ "-" ++ toString index
    timestamp := timestamp
    triggerType := .manual
    triggerSource := .manual
    taskName := some (t "wakeup.runTest" [])
    accountEmail := action.1.email
    modelId := action.2
    prompt := some promptText
    success := match res with | .fulfilled _ => true | .rejected _ => false
    message := message
    duration := some duration }

/-- The runImmediateTest core: guard on empty model and account
selections (validation failure, `none`, before any call); otherwise
dispatch one action per cell of accounts x models, settle all of them
independently through `outcome`, and fold every settlement into a
history record; the second component counts the rejected actions.  The
remote collaborator and per-action elapsed time are parameters. -/
def runImmediateTest (t : Translator) (models : List String)
    (accounts : List FanAccount) (testPrompt : String)
    (testMaxTokens fallbackTokens : Int) (timestamp : Int)
    (outcome : FanAccount × String → SettledResult)
    (elapsed : FanAccount × String → Int) :
    Option (List WakeupHistoryRecord × Nat) :=
  if models.isEmpty then none
  else if accounts.isEmpty then none
  else
    let trimmedPrompt := if (jsTrim testPrompt).isEmpty then none else some (jsTrim testPrompt)
    let promptText := trimmedPrompt.getD DEFAULT_PROMPT
    let _resolvedMaxTokens := normalizeMaxOutputTokens testMaxTokens fallbackTokens
    let actions := fanOutActions accounts models
    let results := actions.map outcome
    let failed := results.filter (fun r => match r with | .rejected _ => true | _ => false)
    let historyItems := actions.enum.map (fun p =>
      mkHistoryItem t promptText timestamp p.1 p.2 (outcome p.2) elapsed)
    some (historyItems, failed.length)

/-- The two accounts of the C4 scenario. -/
def c4AccountA : FanAccount := { id := "acc-1", email := "a1@example.com" }

/-- The second account of the C4 scenario. -/
def c4AccountB : FanAccount := { id := "acc-2", email := "a2@example.com" }

/-- A remote collaborator that fails for the first account and succeeds
for the second. -/
def c4Outcome : FanAccount × String → SettledResult := fun act =>
  if act.1.id = "acc-1" then .rejected "network error"
  else .fulfilled { reply := "ok", durationMs := some 20 }

/-- C4: over accounts a1, a2 and the single model c1 the fan-out
dispatches exactly 2 actions; with a1 failing and a2 succeeding the
aggregated outcome holds exactly one success record and one failure
record, the failure count is 1, and the succeeding action is recorded
despite the sibling failure (all-settle, never fail-fast). -/
theorem c4_fanout :
    (fanOutActions [c4AccountA, c4AccountB] ["c1"]).length = 2 ∧
    ∃ records : List WakeupHistoryRecord,
      runImmediateTest (fun key _ => key) ["c1"] [c4AccountA, c4AccountB] "" 0 0 1000
        c4Outcome (fun _ => 5) = some (records, 1) ∧
      records.length = 2 ∧
      (records.filter (fun r => r.success)).length = 1 ∧
      (records.filter (fun r => !r.success)).length = 1 ∧
      ∃ r ∈ records, r.accountEmail = "a2@example.com" ∧ r.success = true := by
  constructor
  · rfl
  · refine ⟨((runImmediateTest (fun key _ => key) ["c1"] [c4AccountA, c4AccountB] "" 0 0
      1000 c4Outcome (fun _ => 5)).getD ([], 0)).1, ?_, ?_, ?_, ?_, ?_⟩ <;> decide

/-! ## Trigger mode and task save -/

/-- The WakeupTask interface. -/
structure WakeupTask where
  id : String
  name : String
  enabled : Bool
  createdAt : Int
  lastRunAt : Option Int := none
  schedule : ScheduleConfig
deriving DecidableEq

/-- JS truthiness of the optional crontab string: present and non-empty. -/
def crontabTruthy : Option String → Bool
  | some s => !s.isEmpty
  | none => false

/-- The getTriggerMode function: wakeOnReset wins, then a truthy crontab,
else scheduled. -/
def getTriggerMode (task : WakeupTask) : TriggerMode :=
  if task.schedule.wakeOnReset = some true then TriggerMode.quota_reset
  else if crontabTruthy task.schedule.crontab then TriggerMode.crontab
  else TriggerMode.scheduled

/-- The form state feeding handleSaveTask. -/
structure WakeupForm where
  name : String
  enabled : Bool
  triggerMode : TriggerMode
  repeatMode : RepeatMode
  dailyTimes : List String
  weeklyDays : List Int
  weeklyTimes : List String
  intervalHours : Int
  intervalStart : String
  intervalEnd : String
  selectedModels : List String
  selectedAccounts : List String
  customPrompt : String
  maxOutputTokens : Int
  crontab : String
  timeWindowEnabled : Bool
  timeWindowStart : String
  timeWindowEnd : String
  fallbackTimes : List String
deriving DecidableEq

/-- The schedule built by handleSaveTask: validation guards (empty name,
empty selections, crontab mode with a blank expression) abort with no
task; otherwise the normalized schedule sets the crontab string only in
crontab mode and wakeOnReset only in quota-reset mode.  (The id,
createdAt and lastRunAt bookkeeping of the surrounding task object has
no bearing on the trigger-mode flags.) -/
def handleSaveTaskSchedule (form : WakeupForm) : Option ScheduleConfig :=
  if (jsTrim form.name).isEmpty then none
  else if form.selectedAccounts.isEmpty then none
  else if form.selectedModels.isEmpty then none
  else if form.triggerMode = TriggerMode.crontab ∧ (jsTrim form.crontab).isEmpty then none
  else some (normalizeSchedule
    { repeatMode := form.repeatMode
      dailyTimes := form.dailyTimes
      weeklyDays := form.weeklyDays
      weeklyTimes := form.weeklyTimes
      intervalHours := form.intervalHours
      intervalStartTime := form.intervalStart
      intervalEndTime := form.intervalEnd
      selectedModels := form.selectedModels
      selectedAccounts := form.selectedAccounts
      crontab :=
        if form.triggerMode = TriggerMode.crontab then some (jsTrim form.crontab) else none
      wakeOnReset := some (form.triggerMode == TriggerMode.quota_reset)
      customPrompt :=
        if (jsTrim form.customPrompt).isEmpty then none else some (jsTrim form.customPrompt)
      maxOutputTokens := some (normalizeMaxOutputTokens form.maxOutputTokens 0)
      timeWindowEnabled :=
        some ((form.triggerMode == TriggerMode.quota_reset) && form.timeWindowEnabled)
      timeWindowStart :=
        if form.triggerMode = TriggerMode.quota_reset ∧ form.timeWindowEnabled then
          some form.timeWindowStart
        else none
      timeWindowEnd :=
        if form.triggerMode = TriggerMode.quota_reset ∧ form.timeWindowEnabled then
          some form.timeWindowEnd
        else none
      fallbackTimes :=
        if form.triggerMode = TriggerMode.quota_reset ∧ form.timeWindowEnabled then
          some form.fallbackTimes
        else none })

lemma normalizeSchedule_crontab (s : ScheduleConfig) :
    (normalizeSchedule s).crontab = s.crontab := rfl

lemma normalizeSchedule_wakeOnReset (s : ScheduleConfig) :
    (normalizeSchedule s).wakeOnReset = s.wakeOnReset := rfl

/-- A task carrying both trigger flags, representable in storage. -/
def c9BothFlagsTask : WakeupTask :=
  { id := "t1"
    name := "both"
    enabled := true
    createdAt := 0
    schedule := { DEFAULT_SCHEDULE with crontab := some "0 9 * * *", wakeOnReset := some true } }

/-- C9 counterexample: a task with wakeOnReset set and a non-empty cron
expression derives mode QuotaReset, so a non-empty cron expression does
not imply trigger mode Crontab for every task. -/
theorem c9_counterexample :
    crontabTruthy c9BothFlagsTask.schedule.crontab = true ∧
    getTriggerMode c9BothFlagsTask ≠ TriggerMode.crontab := by
  constructor
  · rfl
  · decide

/-- C9 (amended): exactly one trigger mode is derived per task, with
wakeOnReset taking precedence over a non-empty cron expression (which
implies Crontab only when wakeOnReset is not set), and otherwise
Scheduled; and every schedule produced by a save has at most one of the
two flags set, with the cron string present (and non-empty) only in
crontab mode and wakeOnReset true only in quota-reset mode. -/
theorem c9_trigger_mode :
    (∀ task : WakeupTask, task.schedule.wakeOnReset = some true →
      getTriggerMode task = TriggerMode.quota_reset) ∧
    (∀ task : WakeupTask, task.schedule.wakeOnReset ≠ some true →
      crontabTruthy task.schedule.crontab = true →
      getTriggerMode task = TriggerMode.crontab) ∧
    (∀ task : WakeupTask, task.schedule.wakeOnReset ≠ some true →
      crontabTruthy task.schedule.crontab = false →
      getTriggerMode task = TriggerMode.scheduled) ∧
    (∀ (form : WakeupForm) (sch : ScheduleConfig),
      handleSaveTaskSchedule form = some sch →
      ¬ (sch.wakeOnReset = some true ∧ crontabTruthy sch.crontab = true) ∧
      (crontabTruthy sch.crontab = true →
        form.triggerMode = TriggerMode.crontab ∧ sch.wakeOnReset = some false) ∧
      (sch.wakeOnReset = some true →
        form.triggerMode = TriggerMode.quota_reset ∧ sch.crontab = none)) := by
  refine ⟨?_, ?_, ?_, ?_⟩
  · intro task h
    simp [getTriggerMode, h]
  · intro task h1 h2
    simp [getTriggerMode, h1, h2]
  · intro task h1 h2
    simp [getTriggerMode, h1, h2]
  · intro form sch h
    unfold handleSaveTaskSchedule at h
    by_cases h1 : (jsTrim form.name).isEmpty = true
    · rw [if_pos h1] at h
      exact absurd h (by simp)
    rw [if_neg h1] at h
    by_cases h2 : form.selectedAccounts.isEmpty = true
    · rw [if_pos h2] at h
      exact absurd h (by simp)
    rw [if_neg h2] at h
    by_cases h3 : form.selectedModels.isEmpty = true
    · rw [if_pos h3] at h
      exact absurd h (by simp)
    rw [if_neg h3] at h
    by_cases h4 : form.triggerMode = TriggerMode.crontab ∧ (jsTrim form.crontab).isEmpty = true
    · rw [if_pos h4] at h
      exact absurd h (by simp)
    rw [if_neg h4] at h
    obtain rfl := Option.some.inj h
    simp only [normalizeSchedule_crontab, normalizeSchedule_wakeOnReset]
    by_cases hm : form.triggerMode = TriggerMode.quota_reset
    · have hne : ¬ form.triggerMode = TriggerMode.crontab := by
        rw [hm]
        decide
      refine ⟨?_, ?_, ?_⟩ <;> simp [hne, hm, crontabTruthy, beq_iff_eq]
    · by_cases hc : form.triggerMode = TriggerMode.crontab
      · refine ⟨?_, ?_, ?_⟩ <;> simp [hm, hc, crontabTruthy, beq_iff_eq]
      · refine ⟨?_, ?_, ?_⟩ <;> simp [hm, hc, crontabTruthy, beq_iff_eq]

/-- A valid crontab-mode form. -/
def c9Form : WakeupForm :=
  { name := "task"
    enabled := true
    triggerMode := TriggerMode.crontab
    repeatMode := RepeatMode.daily
    dailyTimes := ["08:00"]
    weeklyDays := [1, 2, 3, 4, 5]
    weeklyTimes := ["08:00"]
    intervalHours := 4
    intervalStart := "07:00"
    intervalEnd := "22:00"
    selectedModels := ["codex-hourly"]
    selectedAccounts := ["a@example.com"]
    customPrompt := ""
    maxOutputTokens := 0
    crontab := "0 9 * * *"
    timeWindowEnabled := false
    timeWindowStart := "09:00"
    timeWindowEnd := "18:00"
    fallbackTimes := ["07:00"] }

/-- C9 witness: the trigger-mode facts at the both-flags task and the
save facts at a concrete crontab-mode form. -/
theorem c9_witness :
    getTriggerMode c9BothFlagsTask = TriggerMode.quota_reset ∧
    ∃ sch, handleSaveTaskSchedule c9Form = some sch ∧
      ¬ (sch.wakeOnReset = some true ∧ crontabTruthy sch.crontab = true) := by
  refine ⟨c9_trigger_mode.1 c9BothFlagsTask (by decide), ?_⟩
  cases hs : handleSaveTaskSchedule c9Form with
  | none => exact absurd hs (by decide)
  | some sch => exact ⟨sch, rfl, (c9_trigger_mode.2.2.2 c9Form sch hs).1⟩

/-! ## Legacy storage-key migration -/

/-- The durable key-value store as observed through localStorage. -/
def Store : Type := String → Option String

/-- Model of localStorage.setItem. -/
def setItem (key value : String) (st : Store) : Store :=
  fun k => if k = key then some value else st k

/-- Model of localStorage.removeItem. -/
def removeItem (key : String) (st : Store) : Store :=
  fun k => if k = key then none else st k

/-- The readStorageWithLegacy function: a populated current key is
returned as-is; otherwise a populated legacy key is copied to the
current key, removed, and its value returned. -/
def readStorageWithLegacy (key legacyKey : String) (st : Store) :
    Option String × Store :=
  match st key with
  | some v => (some v, st)
  | none =>
    match st legacyKey with
    | some legacyValue =>
      (some legacyValue, removeItem legacyKey (setItem key legacyValue st))
    | none => (none, st)

/-- The writeStorageAndCleanupLegacy function: set the current key, then
remove the legacy key when it is a distinct key. -/
def writeStorageAndCleanupLegacy (key legacyKey value : String) (st : Store) : Store :=
  let st1 := setItem key value st
  if legacyKey ≠ key then removeItem legacyKey st1 else st1

/-- The current tasks storage key. -/
def TASKS_STORAGE_KEY : String := "cockpit.codex.wakeup.tasks"

/-- The legacy tasks storage key. -/
def LEGACY_TASKS_STORAGE_KEY : String := "agtools.codex.wakeup.tasks"

/-- A store in which both the current and the legacy key hold values. -/
def c10BothStore : Store := fun k =>
  if k = TASKS_STORAGE_KEY then some "current-tasks"
  else if k = LEGACY_TASKS_STORAGE_KEY then some "legacy-tasks"
  else none

/-- C10 counterexample: reading when the current key already holds a
value leaves a populated legacy key untouched, so after such a read the
legacy key still coexists with a populated current key. -/
theorem c10_counterexample :
    (readStorageWithLegacy TASKS_STORAGE_KEY LEGACY_TASKS_STORAGE_KEY c10BothStore).1 =
      some "current-tasks" ∧
    (readStorageWithLegacy TASKS_STORAGE_KEY LEGACY_TASKS_STORAGE_KEY c10BothStore).2
      TASKS_STORAGE_KEY = some "current-tasks" ∧
    (readStorageWithLegacy TASKS_STORAGE_KEY LEGACY_TASKS_STORAGE_KEY c10BothStore).2
      LEGACY_TASKS_STORAGE_KEY = some "legacy-tasks" := by
  refine ⟨rfl, rfl, rfl⟩

/-- C10 (amended): a read with the current key populated returns that
value and changes nothing (so a populated legacy key survives such a
read); a read with the current key empty migrates a populated legacy
value to the current key, removes the legacy key and returns the legacy
value, touching no other key; a read with both keys empty changes
nothing; every write sets the current key and removes the distinct
legacy key; hence after any write, and after any read that found the
current key empty, the legacy key no longer coexists with a populated
current key. -/
theorem c10_storage :
    (∀ (key legacyKey : String) (st : Store) (v : String), st key = some v →
      readStorageWithLegacy key legacyKey st = (some v, st)) ∧
    (∀ (key legacyKey : String) (st : Store) (lv : String), key ≠ legacyKey →
      st key = none → st legacyKey = some lv →
      (readStorageWithLegacy key legacyKey st).1 = some lv ∧
      (readStorageWithLegacy key legacyKey st).2 key = some lv ∧
      (readStorageWithLegacy key legacyKey st).2 legacyKey = none ∧
      (∀ k, k ≠ key → k ≠ legacyKey →
        (readStorageWithLegacy key legacyKey st).2 k = st k)) ∧
    (∀ (key legacyKey : String) (st : Store), st key = none → st legacyKey = none →
      readStorageWithLegacy key legacyKey st = (none, st)) ∧
    (∀ (key legacyKey value : String) (st : Store), key ≠ legacyKey →
      writeStorageAndCleanupLegacy key legacyKey value st key = some value ∧
      writeStorageAndCleanupLegacy key legacyKey value st legacyKey = none) ∧
    (∀ (key legacyKey : String) (st : Store), key ≠ legacyKey → st key = none →
      ¬ (((readStorageWithLegacy key legacyKey st).2 key).isSome = true ∧
        ((readStorageWithLegacy key legacyKey st).2 legacyKey).isSome = true)) := by
  refine ⟨?_, ?_, ?_, ?_, ?_⟩
  · intro key legacyKey st v h
    unfold readStorageWithLegacy
    rw [h]
  · intro key legacyKey st lv hne hk hl
    unfold readStorageWithLegacy
    rw [hk, hl]
    refine ⟨rfl, ?_, ?_, ?_⟩
    · simp [removeItem, setItem, hne, Ne.symm hne]
    · simp [removeItem]
    · intro k hk1 hk2
      simp [removeItem, setItem, hk1, hk2]
  · intro key legacyKey st hk hl
    unfold readStorageWithLegacy
    rw [hk, hl]
  · intro key legacyKey value st hne
    unfold writeStorageAndCleanupLegacy
    rw [if_pos (Ne.symm hne)]
    constructor
    · simp [removeItem, setItem, hne]
    · simp [removeItem]
  · intro key legacyKey st hne hk
    unfold readStorageWithLegacy
    rw [hk]
    cases hl : st legacyKey with
    | some lv =>
      rintro ⟨h1, h2⟩
      simp [removeItem] at h2
    | none =>
      rintro ⟨h1, h2⟩
      simp [hl] at h2

/-- A store in which only the legacy key holds a value. -/
def c10LegacyStore : Store := fun k =>
  if k = LEGACY_TASKS_STORAGE_KEY then some "legacy-tasks" else none

/-- C10 witness: the migration facts at a legacy-only store and the
write facts at the both-keys store. -/
theorem c10_witness :
    (readStorageWithLegacy TASKS_STORAGE_KEY LEGACY_TASKS_STORAGE_KEY c10LegacyStore).1 =
      some "legacy-tasks" ∧
    (readStorageWithLegacy TASKS_STORAGE_KEY LEGACY_TASKS_STORAGE_KEY c10LegacyStore).2
      TASKS_STORAGE_KEY = some "legacy-tasks" ∧
    (readStorageWithLegacy TASKS_STORAGE_KEY LEGACY_TASKS_STORAGE_KEY c10LegacyStore).2
      LEGACY_TASKS_STORAGE_KEY = none ∧
    writeStorageAndCleanupLegacy TASKS_STORAGE_KEY LEGACY_TASKS_STORAGE_KEY "v"
      c10BothStore LEGACY_TASKS_STORAGE_KEY = none := by
  have h := c10_storage.2.1 TASKS_STORAGE_KEY LEGACY_TASKS_STORAGE_KEY c10LegacyStore
    "legacy-tasks" (by decide) (by decide) (by decide)
  have hw := c10_storage.2.2.2.1 TASKS_STORAGE_KEY LEGACY_TASKS_STORAGE_KEY "v"
    c10BothStore (by decide)
  exact ⟨h.1, h.2.1, h.2.2.1, hw.2⟩

/-! ## Selection repair -/

/-- One selection-repair pass for a single list (accounts or models):
skipped entirely when nothing is available; otherwise filter the
selection to the available items, fall back to the first available item
when the filter empties it, and report a change exactly when the
pipe-joined strings differ. -/
def repairList (available sel : List String) : List String × Bool :=
  if available.isEmpty then (sel, false)
  else
    let next := sel.filter (fun e => available.contains e)
    let next2 := if next.isEmpty then [available.headD ""] else next
    if joinPipe next2 ≠ joinPipe sel then (next2, true) else (sel, false)

/-- The per-task body of the selection-repair effect: normalize the
schedule over the defaults, then repair the account selection, then the
model selection; the flag records whether either selection changed. -/
def repairSchedule (accountEmails modelIds : List String) (s : ScheduleConfig) :
    ScheduleConfig × Bool :=
  let ns := normalizeSchedule (mergeDefaults s)
  let accRes := repairList accountEmails ns.selectedAccounts
  let ns1 := if accRes.2 then { ns with selectedAccounts := accRes.1 } else ns
  let modRes := repairList modelIds ns1.selectedModels
  let ns2 := if modRes.2 then { ns1 with selectedModels := modRes.1 } else ns1
  (ns2, accRes.2 || modRes.2)

/-- The selection-repair effect over the task set: early exit (no state
update, `none`) when there are no tasks or when both catalogs are empty;
otherwise the task set is replaced (`some`) exactly when some task's
selection changed. -/
def repairSelections (tasks : List WakeupTask) (accountEmails modelIds : List String) :
    Option (List WakeupTask) :=
  if tasks.isEmpty then none
  else if accountEmails.isEmpty ∧ modelIds.isEmpty then none
  else
    let repaired := tasks.map (fun t =>
      let r := repairSchedule accountEmails modelIds t.schedule
      ({ t with schedule := r.1 }, r.2))
    if repaired.any (fun p => p.2) then some (repaired.map (fun p => p.1)) else none

lemma repairBase_selectedAccounts (s : ScheduleConfig) :
    (normalizeSchedule (mergeDefaults s)).selectedAccounts = s.selectedAccounts := rfl

lemma repairBase_selectedModels (s : ScheduleConfig) :
    (normalizeSchedule (mergeDefaults s)).selectedModels = s.selectedModels := rfl

lemma joinPipe_length (l : List String) :
    (joinPipe l).length = (l.map String.length).sum + (l.length - 1) := by
  induction l with
  | nil => rfl
  | cons x xs ih =>
    cases xs with
    | nil => simp [joinPipe]
    | cons y ys =>
      have hbar : ("|" : String).length = 1 := rfl
      simp only [joinPipe, String.length_append, List.map_cons, List.sum_cons,
        List.length_cons] at *
      omega

lemma isEmpty_false_of_ne {α : Type} (l : List α) (hl : l ≠ []) : l.isEmpty = false := by
  cases l with
  | nil => exact absurd rfl hl
  | cons x xs => rfl

lemma joinPipe_ne_of_proper_sublist {l' l : List String} (hsub : List.Sublist l' l)
    (hne : l' ≠ l) (hne2 : l' ≠ []) : joinPipe l' ≠ joinPipe l := by
  have hlt : l'.length < l.length :=
    lt_of_le_of_ne hsub.length_le (fun h => hne (hsub.eq_of_length h))
  have hsum : (l'.map String.length).sum ≤ (l.map String.length).sum := by
    refine List.Sublist.sum_le_sum (hsub.map String.length) ?_
    intro a ha
    exact Nat.zero_le a
  have hlen : (joinPipe l').length < (joinPipe l).length := by
    rw [joinPipe_length, joinPipe_length]
    have h1 : 1 ≤ l'.length := by
      cases l' with
      | nil => exact absurd rfl hne2
      | cons a as => simp
    omega
  intro h
  rw [h] at hlen
  omega

lemma repairList_valid (a sel : List String) (hne : sel ≠ [])
    (hsub : ∀ e ∈ sel, a.contains e = true) : repairList a sel = (sel, false) := by
  have hane : ¬ a.isEmpty = true := by
    cases sel with
    | nil => exact absurd rfl hne
    | cons e es =>
      have := hsub e (by simp)
      intro hae
      rw [List.isEmpty_iff] at hae
      rw [hae] at this
      simp at this
  have hfil : sel.filter (fun e => a.contains e) = sel :=
    List.filter_eq_self.mpr hsub
  unfold repairList
  rw [if_neg hane]
  simp only [hfil, isEmpty_false_of_ne sel hne, Bool.false_eq_true, if_false]
  simp

lemma repairList_empty_filter (a sel : List String) (ha : a ≠ [])
    (hgood : ∀ x ∈ a, ¬ x = "" ∧ x.data.contains '|' = false)
    (hfil : sel.filter (fun e => a.contains e) = []) :
    repairList a sel = ([a.headD ""], true) := by
  have hane : ¬ a.isEmpty = true := by simpa [List.isEmpty_iff] using ha
  have ha0 : a.headD "" ∈ a := by
    cases a with
    | nil => exact absurd rfl ha
    | cons x xs => simp [List.headD]
  have h0 := hgood _ ha0
  have hneq : joinPipe [a.headD ""] ≠ joinPipe sel := by
    have hjoin : joinPipe [a.headD ""] = a.headD "" := rfl
    rw [hjoin]
    cases sel with
    | nil =>
      intro h
      exact h0.1 h
    | cons x xs =>
      cases xs with
      | nil =>
        intro h
        have hx : x ∈ List.filter (fun e => a.contains e) [x] := by
          rw [List.mem_filter]
          refine ⟨by simp, ?_⟩
          have hxa : x = a.headD "" := h.symm
          rw [hxa]
          simpa using ha0
        rw [hfil] at hx
        exact absurd hx (List.not_mem_nil x)
      | cons y ys =>
        intro h
        have hmem : '|' ∈ (joinPipe (x :: y :: ys)).data := by
          show '|' ∈ (x ++ "|" ++ joinPipe (y :: ys)).data
          simp [String.data_append]
        rw [← h] at hmem
        have hnp : ('|' : Char) ∉ (a.headD "").data := by simpa using h0.2
        exact hnp hmem
  unfold repairList
  rw [if_neg hane]
  simp only [hfil, List.isEmpty_nil, if_true]
  rw [if_pos hneq]

lemma repairList_keeps (a sel : List String)
    (hfil : sel.filter (fun e => a.contains e) ≠ []) :
    (repairList a sel).1 = sel.filter (fun e => a.contains e) := by
  have hane : ¬ a.isEmpty = true := by
    intro hae
    rw [List.isEmpty_iff] at hae
    subst hae
    apply hfil
    apply List.filter_eq_nil_iff.mpr
    intro e he
    simp
  unfold repairList
  rw [if_neg hane]
  simp only [isEmpty_false_of_ne _ hfil, Bool.false_eq_true, if_false]
  by_cases hj : joinPipe (sel.filter (fun e => a.contains e)) = joinPipe sel
  · rw [if_neg (not_not_intro hj)]
    by_cases heq : sel.filter (fun e => a.contains e) = sel
    · exact heq.symm
    · exact absurd hj (joinPipe_ne_of_proper_sublist (List.filter_sublist sel) heq hfil)
  · rw [if_pos hj]

lemma repairList_cases (a sel : List String) :
    repairList a sel = (sel, false) ∨ (repairList a sel).2 = true := by
  simp only [repairList]
  split
  · exact Or.inl rfl
  · split <;> split
    · exact Or.inr rfl
    · exact Or.inl rfl
    · exact Or.inr rfl
    · exact Or.inl rfl

lemma repairSchedule_selectedAccounts (a m : List String) (s : ScheduleConfig) :
    (repairSchedule a m s).1.selectedAccounts = (repairList a s.selectedAccounts).1 := by
  simp only [repairSchedule]
  rw [repairBase_selectedAccounts]
  rcases repairList_cases a s.selectedAccounts with h | h
  · rw [h]
    simp [apply_ite ScheduleConfig.selectedAccounts, repairBase_selectedAccounts]
  · rw [if_pos h]
    simp [apply_ite ScheduleConfig.selectedAccounts]

lemma repairSchedule_selectedModels (a m : List String) (s : ScheduleConfig) :
    (repairSchedule a m s).1.selectedModels = (repairList m s.selectedModels).1 := by
  simp only [repairSchedule]
  rw [repairBase_selectedAccounts]
  rcases repairList_cases a s.selectedAccounts with h | h
  · rw [h]
    simp only [Bool.false_eq_true, if_false, repairBase_selectedModels]
    rcases repairList_cases m s.selectedModels with h2 | h2
    · rw [h2]
      simp [apply_ite ScheduleConfig.selectedModels, repairBase_selectedModels]
    · rw [if_pos h2]
  · rw [if_pos h]
    have hsm : ({ normalizeSchedule (mergeDefaults s) with
        selectedAccounts := (repairList a s.selectedAccounts).1 }).selectedModels =
        s.selectedModels := rfl
    rw [hsm]
    rcases repairList_cases m s.selectedModels with h2 | h2
    · rw [h2]
      simp [apply_ite ScheduleConfig.selectedModels]
    · rw [if_pos h2]

lemma repairSchedule_no_change (a m : List String) (s : ScheduleConfig)
    (h1 : s.selectedAccounts ≠ []) (h2 : ∀ e ∈ s.selectedAccounts, a.contains e = true)
    (h3 : s.selectedModels ≠ []) (h4 : ∀ x ∈ s.selectedModels, m.contains x = true) :
    (repairSchedule a m s).2 = false := by
  simp only [repairSchedule]
  rw [repairBase_selectedAccounts, repairList_valid a s.selectedAccounts h1 h2]
  simp [repairBase_selectedModels, repairList_valid m s.selectedModels h3 h4]

/-- A task whose account selection is empty (hence trivially a subset of
any available set) while its model selection is valid. -/
def c7Task : WakeupTask :=
  { id := "t1"
    name := "t"
    enabled := true
    createdAt := 0
    schedule := { DEFAULT_SCHEDULE with selectedAccounts := [], selectedModels := ["m1"] } }

/-- C7 counterexample: a task whose selections are subsets of the
available sets (the account selection being empty) is nevertheless
changed by the selection repair, so subset-ness alone does not make the
repair a no-op. -/
theorem c7_counterexample :
    (∀ e ∈ c7Task.schedule.selectedAccounts, e ∈ (["a1"] : List String)) ∧
    (∀ x ∈ c7Task.schedule.selectedModels, x ∈ (["m1"] : List String)) ∧
    repairSelections [c7Task] ["a1"] ["m1"] ≠ none := by
  refine ⟨?_, ?_, ?_⟩ <;> decide

/-- C7 (amended): selection repair is a no-op on the task set when every
task's selected accounts and selected models are non-empty subsets of
the currently available accounts and models; per task, a selection that
filters to nothing against a non-empty available list (of non-empty,
separator-free names) is replaced by the single-element list holding the
first available item; and a selection that still has valid entries keeps
exactly its valid entries. -/
theorem c7_repair :
    (∀ (tasks : List WakeupTask) (a m : List String),
      (∀ t ∈ tasks,
        t.schedule.selectedAccounts ≠ [] ∧
        (∀ e ∈ t.schedule.selectedAccounts, a.contains e = true) ∧
        t.schedule.selectedModels ≠ [] ∧
        (∀ x ∈ t.schedule.selectedModels, m.contains x = true)) →
      repairSelections tasks a m = none) ∧
    (∀ (a m : List String) (s : ScheduleConfig), a ≠ [] →
      (∀ x ∈ a, ¬ x = "" ∧ x.data.contains '|' = false) →
      s.selectedAccounts.filter (fun e => a.contains e) = [] →
      (repairSchedule a m s).1.selectedAccounts = [a.headD ""]) ∧
    (∀ (a m : List String) (s : ScheduleConfig),
      s.selectedAccounts.filter (fun e => a.contains e) ≠ [] →
      (repairSchedule a m s).1.selectedAccounts =
        s.selectedAccounts.filter (fun e => a.contains e)) ∧
    (∀ (a m : List String) (s : ScheduleConfig), m ≠ [] →
      (∀ x ∈ m, ¬ x = "" ∧ x.data.contains '|' = false) →
      s.selectedModels.filter (fun e => m.contains e) = [] →
      (repairSchedule a m s).1.selectedModels = [m.headD ""]) ∧
    (∀ (a m : List String) (s : ScheduleConfig),
      s.selectedModels.filter (fun e => m.contains e) ≠ [] →
      (repairSchedule a m s).1.selectedModels =
        s.selectedModels.filter (fun e => m.contains e)) := by
  refine ⟨?_, ?_, ?_, ?_, ?_⟩
  · intro tasks a m hval
    have hfalse : ∀ t ∈ tasks, (repairSchedule a m t.schedule).2 = false := fun t ht =>
      repairSchedule_no_change a m t.schedule (hval t ht).1 (hval t ht).2.1
        (hval t ht).2.2.1 (hval t ht).2.2.2
    simp only [repairSelections]
    by_cases ht : tasks.isEmpty = true
    · rw [if_pos ht]
    · rw [if_neg ht]
      by_cases hb : a.isEmpty = true ∧ m.isEmpty = true
      · rw [if_pos hb]
      · rw [if_neg hb]
        refine if_neg ?_
        simp only [List.any_eq_true]
        rintro ⟨p, hpmem, hp⟩
        obtain ⟨t, ht2, rfl⟩ := List.mem_map.mp hpmem
        simp [hfalse t ht2] at hp
  · intro a m s ha hgood hfil
    rw [repairSchedule_selectedAccounts]
    rw [repairList_empty_filter a s.selectedAccounts ha hgood hfil]
  · intro a m s hfil
    rw [repairSchedule_selectedAccounts]
    exact repairList_keeps a s.selectedAccounts hfil
  · intro a m s hm hgood hfil
    rw [repairSchedule_selectedModels]
    rw [repairList_empty_filter m s.selectedModels hm hgood hfil]
  · intro a m s hfil
    rw [repairSchedule_selectedModels]
    exact repairList_keeps m s.selectedModels hfil

/-- A task with valid non-empty selections. -/
def c7ValidTask : WakeupTask :=
  { id := "t2"
    name := "t2"
    enabled := true
    createdAt := 0
    schedule := { DEFAULT_SCHEDULE with selectedAccounts := ["a1"], selectedModels := ["m1"] } }

/-- C7 witness: the repair facts at a concrete valid task (no-op) and at
the empty-selection task (replacement by the first available account). -/
theorem c7_witness :
    repairSelections [c7ValidTask] ["a1"] ["m1"] = none ∧
    (repairSchedule ["a1"] ["m1"] c7Task.schedule).1.selectedAccounts =
      [(["a1"] : List String).headD ""] := by
  constructor
  · exact c7_repair.1 [c7ValidTask] ["a1"] ["m1"] (by decide)
  · exact c7_repair.2.1 ["a1"] ["m1"] c7Task.schedule (by decide) (by decide) (by decide)

/-! ## Zero-padded time strings -/

/-- The two decimal digits of a value below 100, zero padded. -/
def pad2 (n : Nat) : List Char := [Nat.digitChar (n / 10), Nat.digitChar (n % 10)]

/-- The characters of the zero-padded HH:MM rendering of a wall-clock
time. -/
def hmChars (h m : Nat) : List Char := pad2 h ++ ':' :: pad2 m

/-- The zero-padded HH:MM string of a wall-clock time. -/
def hmString (h m : Nat) : String := ⟨hmChars h m⟩

/-- The candidate instant of a time string, defaulting to 0 for invalid
strings (only applied under a validity hypothesis). -/
def timeValue (now : Int) (off : Nat) (s : String) : Int :=
  (timeCandidate now off s).getD 0

lemma digitChar_toNat {d : Nat} (h : d < 10) : (Nat.digitChar d).toNat = 48 + d := by
  interval_cases d <;> rfl

lemma digitChar_isDigit {d : Nat} (h : d < 10) : (Nat.digitChar d).isDigit = true := by
  interval_cases d <;> rfl

lemma pad2_digits {n : Nat} (h : n < 100) : ∀ c ∈ pad2 n, c.isDigit = true := by
  intro c hc
  rcases List.mem_cons.mp hc with rfl | hc
  · exact digitChar_isDigit (by omega)
  · rcases List.mem_cons.mp hc with rfl | hc
    · exact digitChar_isDigit (by omega)
    · exact absurd hc (List.not_mem_nil c)

lemma jsDigitsToNat_pad2 {n : Nat} (h : n < 100) : jsDigitsToNat (pad2 n) = n := by
  unfold jsDigitsToNat pad2
  simp only [List.foldl_cons, List.foldl_nil]
  rw [digitChar_toNat (show n / 10 < 10 by omega), digitChar_toNat (show n % 10 < 10 by omega)]
  omega

lemma parseTimeHM_hmString {h m : Nat} (hh : h < 24) (hm : m < 60) :
    parseTimeHM (hmString h m) = (some ((h : Nat) : Int), some ((m : Nat) : Int)) := by
  have hda := pad2_digits (show h < 100 by omega)
  have hdb := pad2_digits (show m < 100 by omega)
  have hsplit : splitOnChar ':' (hmChars h m) = [pad2 h, pad2 m] := by
    show splitOnChar ':' (pad2 h ++ ':' :: pad2 m) = _
    rw [splitOnChar_append (fun c hc => isDigit_ne_of (hda c hc) (by decide))]
    rw [splitOnChar_no_sep (fun c hc => isDigit_ne_of (hdb c hc) (by decide))]
  unfold parseTimeHM
  rw [show (hmString h m).data = hmChars h m from rfl, hsplit]
  simp only [List.getElem?_cons_zero, List.getElem?_cons_succ, Option.some_bind]
  rw [jsNumberChars_digits (by simp [pad2]) hda, jsNumberChars_digits (by simp [pad2]) hdb]
  rw [jsDigitsToNat_pad2 (show h < 100 by omega), jsDigitsToNat_pad2 (show m < 100 by omega)]

lemma timeCandidate_hmString {now : Int} {off : Nat} {h m : Nat} (hh : h < 24) (hm : m < 60) :
    timeCandidate now off (hmString h m) = some (atTime now off h m) := by
  unfold timeCandidate
  rw [parseTimeHM_hmString hh hm]

lemma timeValue_hmString {now : Int} {off : Nat} {h m : Nat} (hh : h < 24) (hm : m < 60) :
    timeValue now off (hmString h m) = atTime now off h m := by
  unfold timeValue
  rw [timeCandidate_hmString hh hm]
  rfl

lemma charListLt_hmChars {h m h' m' : Nat} (hh : h < 24) (hm : m < 60)
    (hh' : h' < 24) (hm' : m' < 60) :
    (charListLt (hmChars h m) (hmChars h' m') = true) ↔ h * 60 + m < h' * 60 + m' := by
  show (charListLt
    [Nat.digitChar (h / 10), Nat.digitChar (h % 10), ':',
      Nat.digitChar (m / 10), Nat.digitChar (m % 10)]
    [Nat.digitChar (h' / 10), Nat.digitChar (h' % 10), ':',
      Nat.digitChar (m' / 10), Nat.digitChar (m' % 10)] = true) ↔ _
  simp only [charListLt]
  rw [digitChar_toNat (show h / 10 < 10 by omega), digitChar_toNat (show h % 10 < 10 by omega),
    digitChar_toNat (show m / 10 < 10 by omega), digitChar_toNat (show m % 10 < 10 by omega),
    digitChar_toNat (show h' / 10 < 10 by omega), digitChar_toNat (show h' % 10 < 10 by omega),
    digitChar_toNat (show m' / 10 < 10 by omega), digitChar_toNat (show m' % 10 < 10 by omega),
    show (':' : Char).toNat = 58 from rfl]
  simp only [Bool.or_eq_true, Bool.and_eq_true, decide_eq_true_eq]
  norm_num
  omega

lemma hmString_inj {h m h' m' : Nat} (hh : h < 24) (hm : m < 60)
    (hh' : h' < 24) (hm' : m' < 60) (hv : h * 60 + m = h' * 60 + m') :
    hmString h m = hmString h' m' := by
  have h1 : h = h' := by omega
  have h2 : m = m' := by omega
  rw [h1, h2]

/-! ## Order properties of the JS string comparison and sort -/

lemma charListLt_antisymm : ∀ (a b : List Char),
    charListLt a b = true → charListLt b a = true → False := by
  intro a
  induction a with
  | nil =>
    intro b h1 h2
    cases b with
    | nil => simp [charListLt] at h1
    | cons y ys => simp [charListLt] at h2
  | cons x xs ih =>
    intro b h1 h2
    cases b with
    | nil => simp [charListLt] at h1
    | cons y ys =>
      simp only [charListLt, Bool.or_eq_true, Bool.and_eq_true, decide_eq_true_eq] at h1 h2
      rcases h1 with h1 | ⟨he1, hr1⟩
      · rcases h2 with h2 | ⟨he2, hr2⟩
        · omega
        · omega
      · rcases h2 with h2 | ⟨he2, hr2⟩
        · omega
        · exact ih ys hr1 hr2

lemma charListLt_trans : ∀ (a b c : List Char),
    charListLt a b = true → charListLt b c = true → charListLt a c = true := by
  intro a
  induction a with
  | nil =>
    intro b c h1 h2
    cases b with
    | nil => simp [charListLt] at h1
    | cons y ys =>
      cases c with
      | nil => simp [charListLt] at h2
      | cons z zs => rfl
  | cons x xs ih =>
    intro b c h1 h2
    cases b with
    | nil => simp [charListLt] at h1
    | cons y ys =>
      cases c with
      | nil => simp [charListLt] at h2
      | cons z zs =>
        simp only [charListLt, Bool.or_eq_true, Bool.and_eq_true, decide_eq_true_eq]
          at h1 h2 ⊢
        rcases h1 with h1 | ⟨he1, hr1⟩
        · rcases h2 with h2 | ⟨he2, hr2⟩
          · exact Or.inl (by omega)
          · exact Or.inl (by omega)
        · rcases h2 with h2 | ⟨he2, hr2⟩
          · exact Or.inl (by omega)
          · exact Or.inr ⟨by omega, ih ys zs hr1 hr2⟩

lemma perm_jsInsertStr (x : String) (l : List String) : (jsInsertStr x l).Perm (x :: l) := by
  induction l with
  | nil => exact List.Perm.refl _
  | cons y ys ih =>
    unfold jsInsertStr
    by_cases h : charListLt x.data y.data = true
    · rw [if_pos h]
    · rw [if_neg h]
      exact (ih.cons y).trans (List.Perm.swap x y ys)

lemma perm_jsSortStrings (l : List String) : (jsSortStrings l).Perm l := by
  induction l with
  | nil => exact List.Perm.refl _
  | cons x xs ih => exact (perm_jsInsertStr x (jsSortStrings xs)).trans (ih.cons x)

lemma mem_jsInsertStr {x y : String} {l : List String} (h : y ∈ jsInsertStr x l) :
    y = x ∨ y ∈ l := by
  have := ((perm_jsInsertStr x l).mem_iff).mp h
  simpa using this

lemma pairwise_jsInsertStr {x : String} {l : List String}
    (hl : l.Pairwise (fun a b => charListLt b.data a.data = false)) :
    (jsInsertStr x l).Pairwise (fun a b => charListLt b.data a.data = false) := by
  induction l with
  | nil => simp [jsInsertStr]
  | cons y ys ih =>
    have hy := (List.pairwise_cons.mp hl).1
    have hys := (List.pairwise_cons.mp hl).2
    unfold jsInsertStr
    by_cases h : charListLt x.data y.data = true
    · rw [if_pos h]
      refine List.pairwise_cons.mpr ⟨?_, hl⟩
      intro z hz
      rcases List.mem_cons.mp hz with rfl | hz
      · cases hv : charListLt z.data x.data
        · rfl
        · exact (charListLt_antisymm _ _ h hv).elim
      · cases hv : charListLt z.data x.data
        · rfl
        · have htr := charListLt_trans _ _ _ hv h
          rw [hy z hz] at htr
          exact absurd htr (by decide)
    · rw [if_neg h]
      refine List.pairwise_cons.mpr ⟨?_, ih hys⟩
      intro z hz
      rcases mem_jsInsertStr hz with rfl | hz
      · exact Bool.eq_false_iff.mpr h
      · exact hy z hz

lemma pairwise_jsSortStrings (l : List String) :
    (jsSortStrings l).Pairwise (fun a b => charListLt b.data a.data = false) := by
  induction l with
  | nil => exact List.Pairwise.nil
  | cons x xs ih => exact pairwise_jsInsertStr ih

lemma filter_head_min {l : List Int} {p : Int → Bool} (hp : l.Pairwise (· < ·))
    {hd : Int} {rest : List Int} (hfil : l.filter p = hd :: rest) :
    ∀ c ∈ l, p c = true → hd ≤ c := by
  induction l generalizing rest with
  | nil => simp at hfil
  | cons x xs ih =>
    have hx2 := (List.pairwise_cons.mp hp).1
    have hxs := (List.pairwise_cons.mp hp).2
    intro c hc hpc
    rcases List.mem_cons.mp hc with rfl | hc
    · rw [List.filter_cons_of_pos hpc] at hfil
      injection hfil with h1 h2
      rw [← h1]
    · cases hpx : p x
      · rw [List.filter_cons_of_neg (by simp [hpx])] at hfil
        exact ih hxs hfil c hc hpc
      · rw [List.filter_cons_of_pos hpx] at hfil
        injection hfil with h1 h2
        rw [← h1]
        exact le_of_lt (hx2 c hc)

/-- C1: for a daily schedule whose dailyTimes is a non-empty,
deduplicated list of valid zero-padded HH:MM times, calculateNextRuns
returns at most count instants, all strictly after now, in strictly
increasing order, and (when count is at least 1) its first element is
the earliest candidate instant strictly after now over the 7-day
horizon. -/
theorem c1_daily (config : ScheduleConfig) (now : Int) (count : Nat)
    (hmode : config.repeatMode = RepeatMode.daily)
    (hne : config.dailyTimes ≠ [])
    (hnd : config.dailyTimes.Nodup)
    (hv : ∀ s ∈ config.dailyTimes, ∃ h m : Nat, h < 24 ∧ m < 60 ∧ s = hmString h m) :
    (calculateNextRuns config now count).length ≤ count ∧
    (∀ x ∈ calculateNextRuns config now count, now < x) ∧
    (calculateNextRuns config now count).Pairwise (· < ·) ∧
    (1 ≤ count → ∃ hd, (calculateNextRuns config now count).head? = some hd ∧
      (∃ off : Nat, off < 7 ∧ ∃ s ∈ config.dailyTimes, timeCandidate now off s = some hd) ∧
      (∀ (off : Nat) (s : String) (c : Int), off < 7 → s ∈ config.dailyTimes →
        timeCandidate now off s = some c → now < c → hd ≤ c)) := by
  have hperm := perm_jsSortStrings config.dailyTimes
  have hv' : ∀ s ∈ jsSortStrings config.dailyTimes,
      ∃ h m : Nat, h < 24 ∧ m < 60 ∧ s = hmString h m :=
    fun s hs => hv s (hperm.mem_iff.mp hs)
  have hnd' : (jsSortStrings config.dailyTimes).Nodup := (hperm.nodup_iff).mpr hnd
  have hsorted := pairwise_jsSortStrings config.dailyTimes
  have hblock : ∀ off : Nat,
      ((jsSortStrings config.dailyTimes).map (timeValue now off)).Pairwise (· < ·) := by
    intro off
    rw [List.pairwise_map]
    refine (hsorted.and hnd').imp_of_mem ?_
    rintro a b ha hb ⟨hr, hne2⟩
    obtain ⟨h1, m1, hh1, hm1, rfl⟩ := hv' a ha
    obtain ⟨h2, m2, hh2, hm2, rfl⟩ := hv' b hb
    rw [timeValue_hmString hh1 hm1, timeValue_hmString hh2 hm2]
    have hvlt : h1 * 60 + m1 < h2 * 60 + m2 := by
      have hle : ¬ (h2 * 60 + m2 < h1 * 60 + m1) := by
        intro hlt
        have hgt := (charListLt_hmChars hh2 hm2 hh1 hm1).mpr hlt
        rw [show (hmString h2 m2).data = hmChars h2 m2 from rfl,
          show (hmString h1 m1).data = hmChars h1 m1 from rfl] at hr
        rw [hr] at hgt
        exact absurd hgt (by decide)
      have hnev : h1 * 60 + m1 ≠ h2 * 60 + m2 := by
        intro he
        exact hne2 (hmString_inj hh1 hm1 hh2 hm2 he)
      omega
    unfold atTime msPerDay msPerHour msPerMinute
    omega
  have hcross : ∀ (off off' : Nat), off < off' →
      ∀ a ∈ jsSortStrings config.dailyTimes, ∀ b ∈ jsSortStrings config.dailyTimes,
        timeValue now off a < timeValue now off' b := by
    intro off off' holt a ha b hb
    obtain ⟨h1, m1, hh1, hm1, rfl⟩ := hv' a ha
    obtain ⟨h2, m2, hh2, hm2, rfl⟩ := hv' b hb
    rw [timeValue_hmString hh1 hm1, timeValue_hmString hh2 hm2]
    unfold atTime msPerDay msPerHour msPerMinute
    have hoo : (off : Int) < (off' : Int) := by exact_mod_cast holt
    have hh1c : (h1 : Int) < 24 := by exact_mod_cast hh1
    have hm1c : (m1 : Int) < 60 := by exact_mod_cast hm1
    omega
  have hpair : ((List.range 7).flatMap
      (fun off => (jsSortStrings config.dailyTimes).map (timeValue now off))).Pairwise
      (· < ·) := by
    rw [List.flatMap_def, List.pairwise_flatten]
    constructor
    · intro b hbm
      obtain ⟨off, hoff, rfl⟩ := List.mem_map.mp hbm
      exact hblock off
    · rw [List.pairwise_map]
      refine (List.pairwise_lt_range 7).imp_of_mem ?_
      rintro off off' hoffm hoffm' holt x hx y hy
      obtain ⟨a, ha, rfl⟩ := List.mem_map.mp hx
      obtain ⟨b, hb, rfl⟩ := List.mem_map.mp hy
      exact hcross off off' holt a ha b hb
  have hcand_eq : dailyCandidates config.dailyTimes now =
      ((List.range 7).flatMap
        (fun off => (jsSortStrings config.dailyTimes).map (timeValue now off))).map some := by
    unfold dailyCandidates
    rw [List.map_flatMap]
    refine congrArg _ (funext fun off => ?_)
    rw [List.map_map]
    refine List.map_congr_left ?_
    intro s hs
    obtain ⟨h1, m1, hh1, hm1, rfl⟩ := hv' s hs
    simp [timeCandidate_hmString hh1 hm1, timeValue_hmString hh1 hm1, Function.comp]
  have hrun : calculateNextRuns config now count =
      (((List.range 7).flatMap
        (fun off => (jsSortStrings config.dailyTimes).map (timeValue now off))).filter
        (fun v => decide (now < v))).take count := by
    unfold calculateNextRuns
    rw [if_pos (show config.repeatMode = RepeatMode.daily ∧
      ¬ config.dailyTimes.isEmpty = true from
      ⟨hmode, by simpa [List.isEmpty_iff] using hne⟩)]
    rw [hcand_eq, keepFuture_map_some]
  refine ⟨?_, ?_, ?_, ?_⟩
  · rw [hrun]
    exact List.length_take_le _ _
  · rw [hrun]
    intro x hx
    have hx2 := List.mem_of_mem_take hx
    have := List.of_mem_filter hx2
    exact of_decide_eq_true this
  · rw [hrun]
    exact (hpair.sublist (List.filter_sublist _)).sublist (List.take_sublist _ _)
  · intro hcount
    have hl'ne : jsSortStrings config.dailyTimes ≠ [] := by
      intro h0
      have hnil : ([] : List String).Perm config.dailyTimes := h0 ▸ hperm
      exact hne hnil.symm.eq_nil
    obtain ⟨s0, hs0⟩ : ∃ s, s ∈ jsSortStrings config.dailyTimes := by
      cases hq : jsSortStrings config.dailyTimes with
      | nil => exact absurd hq hl'ne
      | cons a b => exact ⟨a, by simp⟩
    obtain ⟨h0, m0, hh0, hm0, rfl⟩ := hv' s0 hs0
    have hc0mem : timeValue now 6 (hmString h0 m0) ∈ (List.range 7).flatMap
        (fun off => (jsSortStrings config.dailyTimes).map (timeValue now off)) :=
      List.mem_flatMap.mpr ⟨6, by simp, List.mem_map.mpr ⟨_, hs0, rfl⟩⟩
    have hc0gt : now < timeValue now 6 (hmString h0 m0) := by
      rw [timeValue_hmString hh0 hm0]
      unfold atTime startOfDay msPerDay msPerHour msPerMinute
      have hmod1 : 0 ≤ now % 86400000 := Int.emod_nonneg now (by norm_num)
      have hmod2 : now % 86400000 < 86400000 := Int.emod_lt_of_pos now (by norm_num)
      omega
    have hfil_ne : ((List.range 7).flatMap
        (fun off => (jsSortStrings config.dailyTimes).map (timeValue now off))).filter
        (fun v => decide (now < v)) ≠ [] := by
      intro h0f
      have := List.filter_eq_nil_iff.mp h0f _ hc0mem
      simp [hc0gt] at this
    obtain ⟨hd, rest, hfil⟩ : ∃ hd rest, ((List.range 7).flatMap
        (fun off => (jsSortStrings config.dailyTimes).map (timeValue now off))).filter
        (fun v => decide (now < v)) = hd :: rest := by
      cases hfe : ((List.range 7).flatMap
          (fun off => (jsSortStrings config.dailyTimes).map (timeValue now off))).filter
          (fun v => decide (now < v)) with
      | nil => exact absurd hfe hfil_ne
      | cons a b => exact ⟨a, b, rfl⟩
    refine ⟨hd, ?_, ?_, ?_⟩
    · rw [hrun, hfil]
      exact head?_take_of_pos _ _ hcount
    · have hdmem : hd ∈ (List.range 7).flatMap
          (fun off => (jsSortStrings config.dailyTimes).map (timeValue now off)) := by
        refine List.mem_of_mem_filter (p := fun v => decide (now < v)) ?_
        rw [hfil]
        exact List.mem_cons_self hd rest
      obtain ⟨off, hoff, hmem2⟩ := List.mem_flatMap.mp hdmem
      obtain ⟨s, hs, rfl⟩ := List.mem_map.mp hmem2
      obtain ⟨h1, m1, hh1, hm1, rfl⟩ := hv' s hs
      refine ⟨off, List.mem_range.mp hoff, hmString h1 m1, (hperm.mem_iff).mp hs, ?_⟩
      rw [timeCandidate_hmString hh1 hm1, timeValue_hmString hh1 hm1]
    · intro off s c hoff hsmem hcand hcgt
      obtain ⟨h1, m1, hh1, hm1, rfl⟩ := hv s hsmem
      rw [timeCandidate_hmString hh1 hm1] at hcand
      obtain rfl : atTime now off h1 m1 = c := by simpa using hcand
      have hcv : atTime now off h1 m1 ∈ (List.range 7).flatMap
          (fun off => (jsSortStrings config.dailyTimes).map (timeValue now off)) :=
        List.mem_flatMap.mpr ⟨off, List.mem_range.mpr hoff,
          List.mem_map.mpr ⟨hmString h1 m1, (hperm.mem_iff).mpr hsmem,
            timeValue_hmString hh1 hm1⟩⟩
      exact filter_head_min hpair hfil _ hcv (decide_eq_true hcgt)

/-- A daily schedule with two unsorted, valid, distinct times. -/
def c1Config : ScheduleConfig :=
  { repeatMode := .daily
    dailyTimes := ["20:00", "08:30"]
    weeklyDays := [1, 2, 3, 4, 5]
    weeklyTimes := ["08:00"]
    intervalHours := 4
    intervalStartTime := "07:00"
    intervalEndTime := "22:00"
    selectedModels := ["codex-hourly"]
    selectedAccounts := ["a@example.com"]
    maxOutputTokens := some 0 }

/-- C1 witness: the daily-mode facts at a concrete two-time schedule
evaluated at midnight with count 3. -/
theorem c1_witness :
    (calculateNextRuns c1Config 0 3).length ≤ 3 ∧
    (∀ x ∈ calculateNextRuns c1Config 0 3, (0 : Int) < x) ∧
    (calculateNextRuns c1Config 0 3).Pairwise (· < ·) := by
  have h := c1_daily c1Config 0 3 rfl (by decide) (by decide)
    (by
      intro s hs
      have hs2 : s ∈ ["20:00", "08:30"] := hs
      rcases List.mem_cons.mp hs2 with rfl | hs3
      · exact ⟨20, 0, by omega, by omega, by decide⟩
      · rcases List.mem_cons.mp hs3 with rfl | hs4
        · exact ⟨8, 30, by omega, by omega, by decide⟩
        · exact absurd hs4 (List.not_mem_nil s))
  exact ⟨h.1, h.2.1, h.2.2.1⟩
